import Mathlib

/-!
Verification of the media container reconstruction and tagging pipeline of the
tdl-dl-ng repository.

The development shallowly embeds, at byte level:

* `src/web-ui/lib/m4a-utils.ts` — `injectReplayGain`, `findAtom`,
  `getAtomType`, `createCustomAtom`, `writeString`.  Buffers are lists of
  byte values; `DataView` reads and writes that would throw a `RangeError`
  in JavaScript are modelled by `Option` (with `none` for the exception).
  The imperative body of `injectReplayGain` is embedded with explicit state
  passing over a two-buffer state (the input file buffer and the freshly
  allocated output buffer), each `DataView`/`Uint8Array` write naming the
  buffer it targets, so that frame properties about the input buffer are
  expressible.

* `src/web-ui/lib/downloader.ts` — `downloadSegments`, in both its
  sequential mode and its batched concurrent mode (slot array indexed by
  segment position, batches of 6).  Fetching is abstracted by a
  deterministic function from URL to body bytes.

* `src/web-ui/lib/tidal-client.ts` — the manifest-decoding portion of
  `getStreamInfo` (and the older duplicate of it found in
  `src/unnamed/part_008`, which differs by not rewriting `http://` to
  `https://`).  The base64/JSON/DOM parsing collaborators are abstracted:
  a payload is either `invalid` (decoding threw), a decoded BTS URL list,
  a decoded DASH document exposing exactly the queried elements and
  attributes, or a payload of unknown MIME type.  JavaScript string
  operations (`replace` of the first occurrence, `includes`, `parseInt`,
  truthiness of strings) are embedded over `List Char`.
-/

set_option autoImplicit false
set_option maxRecDepth 10000

namespace TdlDl

/-! ### Byte-buffer primitives (DataView / Uint8Array) -/

/-- Char codes of an ASCII literal, e.g. a 4-byte atom type. -/
def strCodes (s : String) : List Nat := s.toList.map Char.toNat

def MOOV : List Nat := strCodes "moov"
def UDTA : List Nat := strCodes "udta"
def META : List Nat := strCodes "meta"
def ILST : List Nat := strCodes "ilst"
def MDAT : List Nat := strCodes "mdat"

/-- Byte of a buffer at an index (only consulted at in-range indices). -/
def byteAt (l : List Nat) (i : Nat) : Nat := l.getD i 0

/-- Model of `DataView.getUint32` (big endian). `none` models the `RangeError`
    thrown when fewer than 4 bytes remain. -/
def readU32 (l : List Nat) (off : Nat) : Option Nat :=
  if off + 4 ≤ l.length then
    some (byteAt l off * 16777216 + byteAt l (off + 1) * 65536 +
          byteAt l (off + 2) * 256 + byteAt l (off + 3))
  else none

/-- The four `getUint8` reads of `getAtomType`, as the list of codes of the
    4-character type string it builds.  `none` models the `RangeError`. -/
def readType (l : List Nat) (off : Nat) : Option (List Nat) :=
  if off + 4 ≤ l.length then
    some [byteAt l off, byteAt l (off + 1), byteAt l (off + 2), byteAt l (off + 3)]
  else none

/-- Big-endian byte encoding written by `DataView.setUint32`
    (the value is taken mod 2^32). -/
def u32be (n : Nat) : List Nat :=
  [n / 16777216 % 256, n / 65536 % 256, n / 256 % 256, n % 256]

/-- Overwrite bytes of `l` starting at `pos` (`Uint8Array.set` /
    `DataView.setUint32`).  `none` models the `RangeError` thrown when the
    write does not fit inside the buffer. -/
def setBytesAt (l : List Nat) (pos : Nat) (bs : List Nat) : Option (List Nat) :=
  if pos + bs.length ≤ l.length then
    some (l.take pos ++ bs ++ l.drop (pos + bs.length))
  else none

/-- Overwriting a 4-byte big-endian field at `off` (the shape produced by a
    successful in-range `setUint32`). -/
def w32 (l : List Nat) (off v : Nat) : List Nat :=
  l.take off ++ (u32be v ++ l.drop (off + 4))

/-! ### `findAtom` (m4a-utils.ts lines 127-141)

The JavaScript loop `while (offset < end - 8) { const size = getUint32(offset);
if (size < 8) return -1; if (type matches) return offset; offset += size }`
is embedded with a fuel argument for structural recursion; `searchEnd + 1`
units of fuel are always sufficient because each iteration requires
`offset + 8 < searchEnd` and advances `offset` by at least 8.
The outer `Option` is the exception (`RangeError` escaping the scan), the
inner one is found / not found (`-1`). -/

def findGo (buf t : List Nat) (fin : Nat) : Nat → Nat → Option (Option Nat)
  | _, 0 => some none
  | offset, fuel + 1 =>
    if offset + 8 < fin then
      match readU32 buf offset with
      | none => none
      | some size =>
        if size < 8 then some none
        else
          match readType buf (offset + 4) with
          | none => none
          | some ty =>
            if ty = t then some (some offset)
            else findGo buf t fin (offset + size) fuel
    else some none

/-- Model of `findAtom(view, type, start, end)` of m4a-utils.ts. -/
def findAtomE (buf t : List Nat) (start fin : Nat) : Option (Option Nat) :=
  findGo buf t fin start (fin + 1)

/-! ### `createCustomAtom` (m4a-utils.ts lines 151-207) -/

/-- Model of `String.prototype.toUpperCase`, restricted to its ASCII action
    (every tag name used by the program is ASCII). -/
def jsToUpperChar (c : Char) : Char :=
  if 'a' ≤ c ∧ c ≤ 'z' then Char.ofNat (c.toNat - 32) else c

/-- Model of `writeString`: each char code written through `setUint8` (mod 256). -/
def strBytes (s : List Char) : List Nat := s.map (fun c => c.toNat % 256)

/-- Model of `createCustomAtom(name, value)`: the serialized `----`/`mean`/`name`/
    `data` atom.  The sequential `setUint32`/`writeString` writes exactly
    tile the pre-sized buffer, so the result is their concatenation. -/
def createCustomAtom (name value : List Char) : List Nat :=
  let mean := strCodes "com.apple.iTunes"
  let atomName := strBytes (name.map jsToUpperChar)
  let atomValue := strBytes value
  let meanSize := 12 + mean.length
  let nameSize := 12 + atomName.length
  let dataSize := 16 + atomValue.length
  let totalSize := 8 + meanSize + nameSize + dataSize
  u32be totalSize ++ strCodes "----" ++
  u32be meanSize ++ strCodes "mean" ++ u32be 0 ++ mean ++
  u32be nameSize ++ strCodes "name" ++ u32be 0 ++ atomName ++
  u32be dataSize ++ strCodes "data" ++ u32be 1 ++ u32be 0 ++ atomValue

/-- The custom atoms built by the tag loop of `injectReplayGain`
    (entries with empty value are skipped: `if (!value) continue`). -/
def tagAtoms (tags : List (List Char × List Char)) : List (List Nat) :=
  (tags.filter (fun kv => !kv.2.isEmpty)).map (fun kv => createCustomAtom kv.1 kv.2)

/-- The `addedSize` total accumulated by the tag loop. -/
def addedSizeOf (tags : List (List Char × List Char)) : Nat :=
  ((tagAtoms tags).map List.length).sum

/-! ### `injectReplayGain` (m4a-utils.ts lines 17-125)

State with both buffers, so every write names its target view:
`dataView` is a view over the input file buffer, `newDataView` over the
freshly allocated output buffer.  The source only ever writes through
`newBuffer.set` / `newDataView.setUint32`, which the embedding records by
tagging every write with `BufTag.outT`. -/

structure PatchState where
  fileB : List Nat
  outB : List Nat
deriving DecidableEq, Repr

/-- Which buffer a write targets. -/
inductive BufTag
  | fileT
  | outT
deriving DecidableEq, Repr

/-- A `Uint8Array.set`-style write into the designated buffer. -/
def writeBytes (st : PatchState) (v : BufTag) (pos : Nat) (bs : List Nat) :
    Option PatchState :=
  match v with
  | .fileT => (setBytesAt st.fileB pos bs).map (fun l => ⟨l, st.outB⟩)
  | .outT => (setBytesAt st.outB pos bs).map (fun l => ⟨st.fileB, l⟩)

/-- A `DataView.setUint32`-style write into the designated buffer. -/
def setU32St (st : PatchState) (v : BufTag) (off val : Nat) : Option PatchState :=
  writeBytes st v off (u32be val)

/-- The atom-insertion loop: `for (const atom of newAtoms)
    { newBuffer.set(atom, currentPos); currentPos += atom.length }`. -/
def writeAtoms : PatchState → Nat → List (List Nat) → Option (PatchState × Nat)
  | st, pos, [] => some (st, pos)
  | st, pos, a :: rest =>
    match writeBytes st .outT pos a with
    | none => none
    | some st' => writeAtoms st' (pos + a.length) rest

/-- The buffer produced by a successful injection: the insertion spliced in
    at the end of the existing `ilst`, then the four ancestor size fields
    rewritten (inner to outer). -/
def patchedBuffer (f : List Nat) (tags : List (List Char × List Char))
    (moovOffset moovSize udtaOffset udtaSize metaOffset metaSize
     ilstOffset ilstSize : Nat) : List Nat :=
  let K := addedSizeOf tags
  w32 (w32 (w32 (w32
    (f.take (ilstOffset + ilstSize) ++ (tagAtoms tags).flatten ++
      f.drop (ilstOffset + ilstSize))
    ilstOffset (ilstSize + K)) metaOffset (metaSize + K))
    udtaOffset (udtaSize + K)) moovOffset (moovSize + K)

/-- Steps 5-8 of `injectReplayGain`, reached once the whole
    `moov → udta → meta → ilst` descent has succeeded. -/
def injectBuild (f : List Nat) (tags : List (List Char × List Char))
    (moovOffset moovSize udtaOffset udtaSize metaOffset metaSize
     ilstOffset ilstSize : Nat) : Option (PatchState × List Nat) :=
  let newAtoms := tagAtoms tags
  let addedSize := addedSizeOf tags
  if addedSize = 0 then some (⟨f, []⟩, f)
  else
    let newFileSize := f.length + addedSize
    let insertionPoint := ilstOffset + ilstSize
    let st : PatchState := ⟨f, List.replicate newFileSize 0⟩
    match writeBytes st .outT 0 (f.take insertionPoint) with
    | none => none
    | some st =>
      match writeAtoms st insertionPoint newAtoms with
      | none => none
      | some (st, currentPos) =>
        match writeBytes st .outT currentPos (f.drop insertionPoint) with
        | none => none
        | some st =>
          match setU32St st .outT ilstOffset (ilstSize + addedSize) with
          | none => none
          | some st =>
            match setU32St st .outT metaOffset (metaSize + addedSize) with
            | none => none
            | some st =>
              match setU32St st .outT udtaOffset (udtaSize + addedSize) with
              | none => none
              | some st =>
                match setU32St st .outT moovOffset (moovSize + addedSize) with
                | none => none
                | some st =>
                  match findAtomE st.fileB MDAT 0 st.fileB.length with
                  | none => none
                  | some _ => some (st, st.outB)

/-- Model of `injectReplayGain(fileBuffer, tags)`.  The result pairs the final state
    of the input file buffer (for frame reasoning) with the returned
    buffer; `none` models an escaping exception. -/
def injectReplayGainSt (f : List Nat) (tags : List (List Char × List Char)) :
    Option (PatchState × List Nat) :=
  match findAtomE f MOOV 0 f.length with
  | none => none
  | some none => some (⟨f, []⟩, f)
  | some (some moovOffset) =>
    match readU32 f moovOffset with
    | none => none
    | some moovSize =>
      match findAtomE f UDTA (moovOffset + 8) (moovOffset + moovSize) with
      | none => none
      | some none => some (⟨f, []⟩, f)
      | some (some udtaOffset) =>
        match readU32 f udtaOffset with
        | none => none
        | some udtaSize =>
          match findAtomE f META (udtaOffset + 8) (udtaOffset + udtaSize) with
          | none => none
          | some none => some (⟨f, []⟩, f)
          | some (some metaOffset) =>
            match readU32 f metaOffset with
            | none => none
            | some metaSize =>
              match findAtomE f ILST (metaOffset + 12) (metaOffset + metaSize) with
              | none => none
              | some none => some (⟨f, []⟩, f)
              | some (some ilstOffset) =>
                match readU32 f ilstOffset with
                | none => none
                | some ilstSize =>
                  injectBuild f tags moovOffset moovSize udtaOffset udtaSize
                    metaOffset metaSize ilstOffset ilstSize

/-- Modelled from the spec: the repository contains no parser for the
    serialized `CustomTagAtom`; this decoder follows the byte layout the
    spec states in §3 (`[size4][----][size4][mean][flags4=0]
    [com.apple.iTunes][size4][name][flags4=0][tagName][size4][data]
    [type4=1][reserved4=0][tagValue]`, each size covering its own
    size+type header) and recovers the tag name and value. -/
def parseCustomAtom (b : List Nat) : Option (List Char × List Char) :=
  match readU32 b 0, readType b 4 with
  | some total, some t0 =>
    if t0 = strCodes "----" ∧ total = b.length then
      match readU32 b 8, readType b 12, readU32 b 16 with
      | some meanSize, some t1, some fl1 =>
        if t1 = strCodes "mean" ∧ fl1 = 0 ∧ 12 ≤ meanSize ∧
            (b.drop 20).take (meanSize - 12) = strCodes "com.apple.iTunes" then
          let nameOff := 8 + meanSize
          match readU32 b nameOff, readType b (nameOff + 4), readU32 b (nameOff + 8) with
          | some nameSize, some t2, some fl2 =>
            if t2 = strCodes "name" ∧ fl2 = 0 ∧ 12 ≤ nameSize then
              let dataOff := nameOff + nameSize
              match readU32 b dataOff, readType b (dataOff + 4),
                    readU32 b (dataOff + 8), readU32 b (dataOff + 12) with
              | some dataSize, some t3, some ty, some rsv =>
                if t3 = strCodes "data" ∧ ty = 1 ∧ rsv = 0 ∧ 16 ≤ dataSize ∧
                    dataOff + dataSize = b.length then
                  some (((b.drop (nameOff + 12)).take (nameSize - 12)).map Char.ofNat,
                        ((b.drop (dataOff + 16)).take (dataSize - 16)).map Char.ofNat)
                else none
              | _, _, _, _ => none
            else none
          | _, _, _ => none
        else none
      | _, _, _ => none
    else none
  | _, _ => none

/-! ### `downloadSegments` (downloader.ts lines 447-543)

`fetch` abstracts `downloadWithProgress`: per the claims it is a
deterministic map from URL to body bytes.  In the concurrent mode the
completion order inside a batch is irrelevant to the slot array because
each in-flight download writes only its own index; the embedding performs
the writes in index order. -/

/-- The inner batch loop: downloads `count` segments starting at index `i`,
    storing each result in its slot (`downloadedChunks[segmentIndex] = chunk`). -/
def fillBatch (fetch : String → List Nat) (urls : List String) :
    List (Option (List Nat)) → Nat → Nat → List (Option (List Nat))
  | slots, _, 0 => slots
  | slots, i, c + 1 =>
    fillBatch fetch urls (slots.set i (some (fetch (urls.getD i "")))) (i + 1) c

/-- The outer batch loop (`for (batchStart = 0; …; batchStart += 6)`),
    with fuel for structural recursion; `urls.length` units are always
    sufficient since every batch advances by at least one index. -/
def runBatches (fetch : String → List Nat) (urls : List String) :
    Nat → Nat → List (Option (List Nat)) → List (Option (List Nat))
  | 0, _, slots => slots
  | fuel + 1, batchStart, slots =>
    if batchStart < urls.length then
      let batchEnd := min (batchStart + 6) urls.length
      runBatches fetch urls fuel batchEnd
        (fillBatch fetch urls slots batchStart (batchEnd - batchStart))
    else slots

/-- The `Combine all chunks in order` loop: appends the non-null slots. -/
def combineChunks (slots : List (Option (List Nat))) : List Nat :=
  slots.foldl (fun acc c => match c with | some chunk => acc ++ chunk | none => acc) []

/-- Model of `downloadSegments(urls)`, with `multiThread` standing for
    `settings.multi_thread_download` and `CONCURRENCY_LIMIT = 6`. -/
def downloadSegments (multiThread : Bool) (fetch : String → List Nat)
    (urls : List String) : List Nat :=
  if multiThread then
    combineChunks (runBatches fetch urls urls.length 0
      (List.replicate urls.length none))
  else
    (urls.map fetch).foldl (fun acc c => acc ++ c) []

/-! ### Manifest decoding (tidal-client.ts lines 264-359, part_008 lines 263-344)

JavaScript string helpers over `List Char`. -/

/-- Model of `String.prototype.replace` with a string pattern: replaces the first
    occurrence only (no occurrence leaves the string unchanged). -/
def jsReplace : List Char → List Char → List Char → List Char
  | [], pat, rep => if pat.isEmpty then rep else []
  | c :: t, pat, rep =>
    if pat.isPrefixOf (c :: t) then rep ++ (c :: t).drop pat.length
    else c :: jsReplace t pat rep

/-- The scheme rewrite `url.replace('http://', 'https://')`. -/
def forceHttps (s : List Char) : List Char :=
  jsReplace s "http://".toList "https://".toList

/-- Model of `String.prototype.includes`. -/
def hasSubstr : List Char → List Char → Bool
  | [], pat => pat.isEmpty
  | c :: t, pat => pat.isPrefixOf (c :: t) || hasSubstr t pat

/-- Truthiness of a nullable string (`null`, `undefined` and `''` are falsy). -/
def truthyStr (o : Option (List Char)) : Bool :=
  match o with
  | none => false
  | some s => !s.isEmpty

/-- Model of `parseInt(s, 10)`: skip leading whitespace, optional sign, then the
    leading decimal digits; `none` is `NaN` (no digits). -/
def jsParseInt (s : List Char) : Option Int :=
  let s1 := s.dropWhile Char.isWhitespace
  match s1 with
  | '-' :: rest =>
    let ds := rest.takeWhile Char.isDigit
    if ds.isEmpty then none
    else some (-(Int.ofNat (ds.foldl (fun a c => a * 10 + (c.toNat - 48)) 0)))
  | '+' :: rest =>
    let ds := rest.takeWhile Char.isDigit
    if ds.isEmpty then none
    else some (Int.ofNat (ds.foldl (fun a c => a * 10 + (c.toNat - 48)) 0))
  | _ =>
    let ds := s1.takeWhile Char.isDigit
    if ds.isEmpty then none
    else some (Int.ofNat (ds.foldl (fun a c => a * 10 + (c.toNat - 48)) 0))

/-- Decimal rendering `i.toString()` of a loop counter. -/
def natDecimal (n : Nat) : List Char := Nat.toDigits 10 n

/-- The `S_elements.forEach` accumulation:
    `const r = parseInt(S.getAttribute('r') || '0', 10); if (r > 0) totalCount += r`. -/
def posRepeatSum (rs : List (Option (List Char))) : Nat :=
  rs.foldl
    (fun acc r =>
      let str := match r with
        | none => "0".toList
        | some s => if s.isEmpty then "0".toList else s
      match jsParseInt str with
      | some v => if 0 < v then acc + v.toNat else acc
      | none => acc)
    0

/-- The `SegmentTemplate` element, exposing the two queried attributes and
    the `r` attributes of its `SegmentTimeline S` children in document order
    (`none` where `getAttribute` returns `null`). -/
structure SegTemplate where
  initialization : Option (List Char)
  media : Option (List Char)
  sRepeats : List (Option (List Char))

/-- The parsed DASH document, exposing exactly the query results the code
    asks of the DOM: the first `BaseURL` element's text, the first
    `SegmentTemplate` element, and the first `Representation BaseURL`
    element's text (`none` for a missing element or `null` text). -/
structure DashDoc where
  baseURL : Option (List Char)
  template : Option SegTemplate
  repBaseURL : Option (List Char)

/-- The decoded manifest payload handed to the decoding section of
    `getStreamInfo`: `invalid` models a payload on which
    `atob`/`JSON.parse` threw (the `catch` branch), `bts` a decoded BTS
    JSON object's `urls` field, `dash` a parsed MPD document, and
    `unknownMime` any other `manifestMimeType`. -/
inductive ManifestPayload
  | invalid
  | bts (urls : List (List Char))
  | dash (d : DashDoc)
  | unknownMime

/-- The DASH branch of `getStreamInfo` in src/web-ui/lib/tidal-client.ts
    (lines 287-338), producing `(streamUrl, streamUrls)`. -/
def decodeDashLib (d : DashDoc) : List Char × List (List Char) :=
  if truthyStr d.baseURL then (forceHttps (d.baseURL.getD []), [])
  else
    let initialization := d.template.bind SegTemplate.initialization
    let media := d.template.bind SegTemplate.media
    let ru :=
      if truthyStr media && hasSubstr (media.getD []) "$Number$".toList &&
          d.template.isSome then
        let m := media.getD []
        let rs := (d.template.map SegTemplate.sRepeats).getD []
        let totalCount := 2 + posRepeatSum rs
        let urls := (List.range totalCount).map
          (fun i => forceHttps (jsReplace m "$Number$".toList (natDecimal i)))
        if 0 < urls.length then (urls.getD 0 [], urls) else ([], [])
      else if truthyStr media then (forceHttps (media.getD []), [])
      else if truthyStr initialization then (forceHttps (initialization.getD []), [])
      else ([], [])
    if ru.1.isEmpty && ru.2.length = 0 then
      if truthyStr d.repBaseURL then (forceHttps (d.repBaseURL.getD []), ru.2)
      else ru
    else ru

/-- The manifest-decoding section of `getStreamInfo` in
    src/web-ui/lib/tidal-client.ts: the `(streamUrl, streamUrls)` pair it
    puts into the returned `StreamInfo`. -/
def decodeManifest (m : ManifestPayload) : List Char × List (List Char) :=
  match m with
  | .invalid => ([], [])
  | .bts urls => (forceHttps (urls.getD 0 []), [])
  | .dash d => decodeDashLib d
  | .unknownMime => ([], [])

/-- The DASH branch of the older duplicate `getStreamInfo` in
    src/unnamed/part_008 (lines 284-341): identical control flow but no
    `http://` → `https://` rewriting anywhere. -/
def decodeDashPart8 (d : DashDoc) : List Char × List (List Char) :=
  if truthyStr d.baseURL then (d.baseURL.getD [], [])
  else
    let initialization := d.template.bind SegTemplate.initialization
    let media := d.template.bind SegTemplate.media
    let ru :=
      if truthyStr media && hasSubstr (media.getD []) "$Number$".toList &&
          d.template.isSome then
        let m := media.getD []
        let rs := (d.template.map SegTemplate.sRepeats).getD []
        let totalCount := 2 + posRepeatSum rs
        let urls := (List.range totalCount).map
          (fun i => jsReplace m "$Number$".toList (natDecimal i))
        if 0 < urls.length then (urls.getD 0 [], urls) else ([], [])
      else if truthyStr media then (media.getD [], [])
      else if truthyStr initialization then (initialization.getD [], [])
      else ([], [])
    if ru.1.isEmpty && ru.2.length = 0 then
      if truthyStr d.repBaseURL then (d.repBaseURL.getD [], ru.2)
      else ru
    else ru

/-- The manifest-decoding section of the older duplicate `getStreamInfo`
    in src/unnamed/part_008. -/
def decodeManifestPart8 (m : ManifestPayload) : List Char × List (List Char) :=
  match m with
  | .invalid => ([], [])
  | .bts urls => (urls.getD 0 [], [])
  | .dash d => decodeDashPart8 d
  | .unknownMime => ([], [])

/-- The caller-side check of downloader.ts (lines 792-794, 992-994):
    `if (!streamInfo.streamUrl && (!streamInfo.streamUrls ||
    streamInfo.streamUrls.length === 0)) throw new Error('Could not get
    stream URL')`. -/
def couldNotGetStreamUrl (r : List Char × List (List Char)) : Bool :=
  r.1.isEmpty && r.2.length = 0

/-! ## Byte-buffer lemmas -/

theorem byteAt_append_left {l1 l2 : List Nat} {j : Nat} (h : j < l1.length) :
    byteAt (l1 ++ l2) j = byteAt l1 j := by
  simp [byteAt, List.getElem?_append_left h]

theorem byteAt_append_right {l1 l2 : List Nat} {j : Nat} (h : l1.length ≤ j) :
    byteAt (l1 ++ l2) j = byteAt l2 (j - l1.length) := by
  simp [byteAt, List.getElem?_append_right h]

theorem byteAt_take {l : List Nat} {n j : Nat} (h : j < n) :
    byteAt (l.take n) j = byteAt l j := by
  simp [byteAt, List.getElem?_take_of_lt h]

theorem byteAt_drop (l : List Nat) (i j : Nat) :
    byteAt (l.drop i) j = byteAt l (i + j) := by
  simp [byteAt, List.getElem?_drop]

theorem length_u32be (v : Nat) : (u32be v).length = 4 := rfl

theorem length_w32 {l : List Nat} {off v : Nat} (h : off + 4 ≤ l.length) :
    (w32 l off v).length = l.length := by
  simp [w32, u32be]
  omega

theorem byteAt_w32_lt {l : List Nat} {off v j : Nat} (hj : j < off)
    (h : off + 4 ≤ l.length) : byteAt (w32 l off v) j = byteAt l j := by
  have hlt : j < (l.take off).length := by
    simp
    omega
  rw [w32, byteAt_append_left hlt, byteAt_take hj]

theorem byteAt_w32_ge {l : List Nat} {off v j : Nat} (hj : off + 4 ≤ j)
    (h : off + 4 ≤ l.length) : byteAt (w32 l off v) j = byteAt l j := by
  have hlen : (l.take off).length = off := by
    simp
    omega
  have h1 : (l.take off).length ≤ j := by omega
  rw [w32, byteAt_append_right h1, hlen]
  have h2 : (u32be v).length ≤ j - off := by
    rw [length_u32be]
    omega
  rw [byteAt_append_right h2, length_u32be, byteAt_drop]
  congr 1
  omega

theorem byteAt_w32_in {l : List Nat} {off v : Nat} (k : Nat) (hk : k < 4)
    (h : off + 4 ≤ l.length) : byteAt (w32 l off v) (off + k) = byteAt (u32be v) k := by
  have hlen : (l.take off).length = off := by
    simp
    omega
  have h1 : (l.take off).length ≤ off + k := by omega
  rw [w32, byteAt_append_right h1, hlen]
  have h2 : off + k - off = k := by omega
  rw [h2]
  have h3 : k < (u32be v).length := by
    rw [length_u32be]
    exact hk
  rw [byteAt_append_left h3]

theorem readU32_w32_self {l : List Nat} {off v : Nat} (h : off + 4 ≤ l.length) :
    readU32 (w32 l off v) off = some (v % 4294967296) := by
  have hl := @length_w32 l off v h
  rw [readU32, if_pos (by omega)]
  have e0 := @byteAt_w32_in l off v 0 (by omega) h
  have e1 := @byteAt_w32_in l off v 1 (by omega) h
  have e2 := @byteAt_w32_in l off v 2 (by omega) h
  have e3 := @byteAt_w32_in l off v 3 (by omega) h
  rw [Nat.add_zero] at e0
  rw [e0, e1, e2, e3]
  have b0 : byteAt (u32be v) 0 = v / 16777216 % 256 := rfl
  have b1 : byteAt (u32be v) 1 = v / 65536 % 256 := rfl
  have b2 : byteAt (u32be v) 2 = v / 256 % 256 := rfl
  have b3 : byteAt (u32be v) 3 = v % 256 := rfl
  rw [b0, b1, b2, b3]
  congr 1
  omega

theorem readU32_w32_disjoint {l : List Nat} {off v p : Nat}
    (hd : p + 4 ≤ off ∨ off + 4 ≤ p) (h : off + 4 ≤ l.length) :
    readU32 (w32 l off v) p = readU32 l p := by
  have hl := @length_w32 l off v h
  have hb : ∀ k, k < 4 → byteAt (w32 l off v) (p + k) = byteAt l (p + k) := by
    intro k hk
    rcases hd with hd | hd
    · exact byteAt_w32_lt (by omega) h
    · exact byteAt_w32_ge (by omega) h
  rw [readU32, readU32, hl]
  by_cases hp : p + 4 ≤ l.length
  · rw [if_pos hp, if_pos hp]
    have e0 := hb 0 (by omega)
    rw [Nat.add_zero] at e0
    rw [e0, hb 1 (by omega), hb 2 (by omega), hb 3 (by omega)]
  · rw [if_neg hp, if_neg hp]

theorem setBytesAt_eq_some {l bs : List Nat} {pos : Nat}
    (h : pos + bs.length ≤ l.length) :
    setBytesAt l pos bs = some (l.take pos ++ (bs ++ l.drop (pos + bs.length))) := by
  rw [setBytesAt, if_pos h]
  simp

theorem setBytesAt_u32be {l : List Nat} {off v : Nat} (h : off + 4 ≤ l.length) :
    setBytesAt l off (u32be v) = some (w32 l off v) := by
  rw [setBytesAt_eq_some (by rw [length_u32be]; omega), w32, length_u32be]

/-! ## `findAtom` lemmas -/

theorem findGo_congr (buf t : List Nat) (fin : Nat) :
    ∀ fuel1 offset fuel2 : Nat, fin ≤ offset + 8 * fuel1 →
      fin ≤ offset + 8 * fuel2 →
      findGo buf t fin offset fuel1 = findGo buf t fin offset fuel2 := by
  intro fuel1
  induction fuel1 with
  | zero =>
    intro offset fuel2 h1 h2
    cases fuel2 with
    | zero => rfl
    | succ f =>
      rw [findGo, findGo, if_neg (by omega)]
  | succ fuel ih =>
    intro offset fuel2 h1 h2
    cases fuel2 with
    | zero =>
      rw [findGo, findGo, if_neg (by omega)]
    | succ f =>
      rw [findGo, findGo]
      by_cases hg : offset + 8 < fin
      · rw [if_pos hg, if_pos hg]
        cases hr : readU32 buf offset with
        | none => rfl
        | some size =>
          simp only []
          by_cases hs : size < 8
          · rw [if_pos hs, if_pos hs]
          · rw [if_neg hs, if_neg hs]
            cases ht : readType buf (offset + 4) with
            | none => rfl
            | some ty =>
              simp only []
              by_cases hty : ty = t
              · rw [if_pos hty, if_pos hty]
              · rw [if_neg hty, if_neg hty]
                exact ih (offset + size) f (by omega) (by omega)
      · rw [if_neg hg, if_neg hg]

/-- Unfolding equation for `findAtomE`: one step of the scanning loop. -/
theorem findAtomE_step (buf t : List Nat) (start fin : Nat) :
    findAtomE buf t start fin =
      if start + 8 < fin then
        match readU32 buf start with
        | none => none
        | some size =>
          if size < 8 then some none
          else
            match readType buf (start + 4) with
            | none => none
            | some ty =>
              if ty = t then some (some start)
              else findAtomE buf t (start + size) fin
      else some none := by
  rw [findAtomE, findGo]
  by_cases hg : start + 8 < fin
  · rw [if_pos hg, if_pos hg]
    cases hr : readU32 buf start with
    | none => rfl
    | some size =>
      simp only []
      by_cases hs : size < 8
      · rw [if_pos hs, if_pos hs]
      · rw [if_neg hs, if_neg hs]
        cases ht : readType buf (start + 4) with
        | none => rfl
        | some ty =>
          simp only []
          by_cases hty : ty = t
          · rw [if_pos hty, if_pos hty]
          · rw [if_neg hty, if_neg hty, findAtomE]
            exact findGo_congr buf t fin fin (start + size) (fin + 1)
              (by omega) (by omega)
  · rw [if_neg hg, if_neg hg]

theorem findGo_ge (buf t : List Nat) (fin : Nat) :
    ∀ fuel offset o : Nat, findGo buf t fin offset fuel = some (some o) →
      offset ≤ o := by
  intro fuel
  induction fuel with
  | zero =>
    intro offset o h
    rw [findGo] at h
    cases h
  | succ fuel ih =>
    intro offset o h
    rw [findGo] at h
    by_cases hg : offset + 8 < fin
    · rw [if_pos hg] at h
      cases hr : readU32 buf offset with
      | none => rw [hr] at h; cases h
      | some size =>
        rw [hr] at h
        simp only [] at h
        by_cases hs : size < 8
        · rw [if_pos hs] at h
          cases h
        · rw [if_neg hs] at h
          cases ht : readType buf (offset + 4) with
          | none => rw [ht] at h; cases h
          | some ty =>
            rw [ht] at h
            simp only [] at h
            by_cases hty : ty = t
            · rw [if_pos hty] at h
              cases h
              omega
            · rw [if_neg hty] at h
              have := ih (offset + size) o h
              omega
    · rw [if_neg hg] at h
      cases h

/-- Data recorded at a successfully returned offset: the scan read a size
    of at least 8 there, the type matches, and the 8-byte header starts
    strictly 8 bytes before `fin`. -/
theorem findGo_found (buf t : List Nat) (fin : Nat) :
    ∀ fuel offset o : Nat, findGo buf t fin offset fuel = some (some o) →
      ∃ sz, readU32 buf o = some sz ∧ 8 ≤ sz ∧
        readType buf (o + 4) = some t ∧ o + 8 < fin := by
  intro fuel
  induction fuel with
  | zero =>
    intro offset o h
    rw [findGo] at h
    cases h
  | succ fuel ih =>
    intro offset o h
    rw [findGo] at h
    by_cases hg : offset + 8 < fin
    · rw [if_pos hg] at h
      cases hr : readU32 buf offset with
      | none => rw [hr] at h; cases h
      | some size =>
        rw [hr] at h
        simp only [] at h
        by_cases hs : size < 8
        · rw [if_pos hs] at h
          cases h
        · rw [if_neg hs] at h
          cases ht : readType buf (offset + 4) with
          | none => rw [ht] at h; cases h
          | some ty =>
            rw [ht] at h
            simp only [] at h
            by_cases hty : ty = t
            · rw [if_pos hty] at h
              cases h
              exact ⟨size, hr, by omega, by rw [hty] at ht; exact ht, hg⟩
            · rw [if_neg hty] at h
              exact ih (offset + size) o h
    · rw [if_neg hg] at h
      cases h

/-- A scan whose search window lies inside the buffer never throws. -/
theorem findGo_total (buf t : List Nat) (fin : Nat) (hfin : fin ≤ buf.length) :
    ∀ fuel offset : Nat, findGo buf t fin offset fuel ≠ none := by
  intro fuel
  induction fuel with
  | zero =>
    intro offset h
    rw [findGo] at h
    cases h
  | succ fuel ih =>
    intro offset h
    rw [findGo] at h
    by_cases hg : offset + 8 < fin
    · rw [if_pos hg] at h
      have hr : readU32 buf offset =
          some (byteAt buf offset * 16777216 + byteAt buf (offset + 1) * 65536 +
            byteAt buf (offset + 2) * 256 + byteAt buf (offset + 3)) := by
        rw [readU32, if_pos (by omega)]
      rw [hr] at h
      simp only [] at h
      by_cases hs : (byteAt buf offset * 16777216 + byteAt buf (offset + 1) * 65536 +
          byteAt buf (offset + 2) * 256 + byteAt buf (offset + 3)) < 8
      · rw [if_pos hs] at h
        cases h
      · rw [if_neg hs] at h
        have ht : readType buf (offset + 4) =
            some [byteAt buf (offset + 4), byteAt buf (offset + 5),
              byteAt buf (offset + 6), byteAt buf (offset + 7)] := by
          rw [readType, if_pos (by omega)]
        rw [ht] at h
        simp only [] at h
        by_cases hty : [byteAt buf (offset + 4), byteAt buf (offset + 5),
            byteAt buf (offset + 6), byteAt buf (offset + 7)] = t
        · rw [if_pos hty] at h
          cases h
        · rw [if_neg hty] at h
          exact ih _ h
    · rw [if_neg hg] at h
      cases h

theorem findAtomE_ge {buf t : List Nat} {start fin o : Nat}
    (h : findAtomE buf t start fin = some (some o)) : start ≤ o :=
  findGo_ge buf t fin (fin + 1) start o h

theorem findAtomE_found {buf t : List Nat} {start fin o : Nat}
    (h : findAtomE buf t start fin = some (some o)) :
    ∃ sz, readU32 buf o = some sz ∧ 8 ≤ sz ∧
      readType buf (o + 4) = some t ∧ o + 8 < fin :=
  findGo_found buf t fin (fin + 1) start o h

theorem findAtomE_total {buf t : List Nat} {start fin : Nat}
    (hfin : fin ≤ buf.length) : findAtomE buf t start fin ≠ none :=
  findGo_total buf t fin hfin (fin + 1) start

/-! ## Claim C7 -/

/-- C7 counterexample: a buffer consisting of a single well-formed `moov`
    atom whose 8-byte header ends exactly at `searchEnd = 8`.  The claim
    says such an atom is still examined (so the scan would return offset
    0); the code's loop guard `offset < end - 8` skips it and the scan
    returns NotFound. -/
theorem c7_boundary_counterexample :
    findAtomE [0, 0, 0, 8, 109, 111, 111, 118] MOOV 0 8 = some none ∧
      readU32 [0, 0, 0, 8, 109, 111, 111, 118] 0 = some 8 ∧
      readType [0, 0, 0, 8, 109, 111, 111, 118] 4 = some MOOV := by
  refine ⟨?_, ?_, ?_⟩ <;> decide

/-- C7 (amended): `findAtom` scans linearly from `searchStart`, reading a
    4-byte big-endian size at the current offset, returning NotFound as
    soon as a size below 8 is read, returning the current offset when the
    following 4 type bytes match, and otherwise advancing by the size just
    read; the scan returns NotFound as soon as 8 or fewer bytes remain
    before `searchEnd` (loop guard `offset < searchEnd - 8`), so an atom
    whose 8-byte header ends exactly at `searchEnd` is NOT examined.
    A read outside the buffer (`none` from `readU32`/`readType`) aborts
    with the exception. -/
theorem c7_findAtom_characterization (buf t : List Nat) (start fin : Nat) :
    findAtomE buf t start fin =
      if start + 8 < fin then
        match readU32 buf start with
        | none => none
        | some size =>
          if size < 8 then some none
          else
            match readType buf (start + 4) with
            | none => none
            | some ty =>
              if ty = t then some (some start)
              else findAtomE buf t (start + size) fin
      else some none :=
  findAtomE_step buf t start fin

/-! ## `downloadSegments` lemmas (claim C3) -/

theorem fillBatch_length (fetch : String → List Nat) (urls : List String) :
    ∀ (c : Nat) (slots : List (Option (List Nat))) (i : Nat),
      (fillBatch fetch urls slots i c).length = slots.length := by
  intro c
  induction c with
  | zero =>
    intro slots i
    rfl
  | succ c ih =>
    intro slots i
    rw [fillBatch, ih]
    exact List.length_set slots i _

theorem fillBatch_getElem (fetch : String → List Nat) (urls : List String) :
    ∀ (c : Nat) (slots : List (Option (List Nat))) (i j : Nat),
      (fillBatch fetch urls slots i c)[j]? =
        if i ≤ j ∧ j < i + c ∧ j < slots.length then
          some (some (fetch (urls.getD j "")))
        else slots[j]? := by
  intro c
  induction c with
  | zero =>
    intro slots i j
    rw [fillBatch, if_neg (by omega)]
  | succ c ih =>
    intro slots i j
    rw [fillBatch, ih]
    rw [List.length_set]
    by_cases h1 : i + 1 ≤ j ∧ j < i + 1 + c ∧ j < slots.length
    · rw [if_pos h1, if_pos (by omega)]
    · rw [if_neg h1, List.getElem?_set]
      by_cases h2 : i = j
      · subst h2
        by_cases h3 : i < slots.length
        · rw [if_pos rfl, if_pos h3, if_pos (by omega)]
        · rw [if_pos rfl, if_neg h3, if_neg (by omega),
            List.getElem?_eq_none (by omega)]
      · rw [if_neg h2, if_neg (by omega)]

theorem fillBatch_append (fetch : String → List Nat) (urls : List String) :
    ∀ (c1 c2 i : Nat) (slots : List (Option (List Nat))),
      fillBatch fetch urls (fillBatch fetch urls slots i c1) (i + c1) c2 =
        fillBatch fetch urls slots i (c1 + c2) := by
  intro c1
  induction c1 with
  | zero =>
    intro c2 i slots
    rw [fillBatch]
    rw [Nat.add_zero, Nat.zero_add]
  | succ c1 ih =>
    intro c2 i slots
    have e1 : i + (c1 + 1) = (i + 1) + c1 := by omega
    have e2 : c1 + 1 + c2 = c1 + c2 + 1 := by omega
    rw [fillBatch, e1, ih, e2, fillBatch]

theorem runBatches_eq (fetch : String → List Nat) (urls : List String) :
    ∀ (fuel b : Nat) (slots : List (Option (List Nat))),
      urls.length ≤ b + fuel →
      runBatches fetch urls fuel b slots =
        fillBatch fetch urls slots b (urls.length - b) := by
  intro fuel
  induction fuel with
  | zero =>
    intro b slots h
    have e : urls.length - b = 0 := by omega
    rw [e, runBatches, fillBatch]
  | succ fuel ih =>
    intro b slots h
    rw [runBatches]
    by_cases hb : b < urls.length
    · rw [if_pos hb]
      rw [ih (min (b + 6) urls.length) _ (by omega)]
      have hbe : min (b + 6) urls.length = b + (min (b + 6) urls.length - b) := by
        omega
      have hsum : min (b + 6) urls.length - b +
          (urls.length - min (b + 6) urls.length) = urls.length - b := by omega
      calc fillBatch fetch urls
            (fillBatch fetch urls slots b (min (b + 6) urls.length - b))
            (min (b + 6) urls.length) (urls.length - min (b + 6) urls.length)
          = fillBatch fetch urls
            (fillBatch fetch urls slots b (min (b + 6) urls.length - b))
            (b + (min (b + 6) urls.length - b))
            (urls.length - min (b + 6) urls.length) := by rw [← hbe]
        _ = fillBatch fetch urls slots b
            (min (b + 6) urls.length - b +
              (urls.length - min (b + 6) urls.length)) :=
            fillBatch_append fetch urls _ _ _ _
        _ = fillBatch fetch urls slots b (urls.length - b) := by rw [hsum]
    · rw [if_neg hb]
      have e : urls.length - b = 0 := by omega
      rw [e, fillBatch]

/-- After all batches, slot `j` holds exactly segment `j`'s body. -/
theorem runBatches_slots (fetch : String → List Nat) (urls : List String) :
    runBatches fetch urls urls.length 0 (List.replicate urls.length none) =
      urls.map (fun u => some (fetch u)) := by
  rw [runBatches_eq fetch urls urls.length 0 _ (by omega)]
  apply List.ext_getElem?
  intro j
  rw [fillBatch_getElem]
  simp only [List.length_replicate, Nat.zero_add, Nat.sub_zero, Nat.zero_le,
    true_and]
  by_cases hj : j < urls.length
  · rw [if_pos ⟨hj, hj⟩, List.getElem?_map, List.getElem?_eq_getElem hj]
    simp [List.getD_eq_getElem?_getD, List.getElem?_eq_getElem hj]
  · rw [if_neg (by omega), List.getElem?_eq_none (by simp; omega),
      List.getElem?_eq_none (by simp; omega)]

theorem combineChunks_map_some (f : String → List Nat) :
    ∀ (l : List String) (acc : List Nat),
      (l.map (fun u => some (f u))).foldl
        (fun acc c => match c with | some chunk => acc ++ chunk | none => acc)
        acc =
      (l.map f).foldl (fun acc c => acc ++ c) acc := by
  intro l
  induction l with
  | nil =>
    intro acc
    rfl
  | cons a t ih =>
    intro acc
    rw [List.map_cons, List.map_cons, List.foldl_cons, List.foldl_cons]
    exact ih _

/-- C3: with a deterministic fetch, the batched concurrent mode of
    `downloadSegments` (slot array, batches of 6) produces output
    byte-identical to the sequential mode — the concatenation of the
    segment bodies in URL order — for every URL list (in particular all
    lengths 1, 2, 6, 7, 13). -/
theorem c3_parallel_eq_sequential (fetch : String → List Nat)
    (urls : List String) :
    downloadSegments true fetch urls = downloadSegments false fetch urls := by
  rw [downloadSegments, downloadSegments, if_pos rfl,
    if_neg (by exact Bool.false_ne_true), runBatches_slots, combineChunks]
  exact combineChunks_map_some fetch urls []

/-! ## Claim C4 -/

/-- C4 counterexample: the claim (following the spec's arithmetic) puts the
    serialized atom for `("REPLAYGAIN_TRACK_GAIN", "-8.50 dB")` at 94
    bytes, counting `"com.apple.iTunes"` as 17 bytes; the string is 16
    bytes, so the atom createCustomAtom builds is 93 bytes long. -/
theorem c4_length_counterexample :
    (createCustomAtom "REPLAYGAIN_TRACK_GAIN".toList "-8.50 dB".toList).length ≠ 94 := by
  decide

/-- C4 (amended): for the tag `("REPLAYGAIN_TRACK_GAIN", "-8.50 dB")` the
    serialized atom is exactly 93 bytes (8 for `----`, 12+16 for `mean`
    with `"com.apple.iTunes"` = 16 bytes, 12+21 for `name`, 16+8 for
    `data`), each size field reading the byte length of its sub-atom
    including its own size+type header, and parsing the bytes back
    recovers the key and value exactly. -/
theorem c4_atom_roundtrip :
    (createCustomAtom "REPLAYGAIN_TRACK_GAIN".toList "-8.50 dB".toList).length = 93 ∧
    readU32 (createCustomAtom "REPLAYGAIN_TRACK_GAIN".toList "-8.50 dB".toList) 0 = some 93 ∧
    readType (createCustomAtom "REPLAYGAIN_TRACK_GAIN".toList "-8.50 dB".toList) 4 = some (strCodes "----") ∧
    readU32 (createCustomAtom "REPLAYGAIN_TRACK_GAIN".toList "-8.50 dB".toList) 8 = some 28 ∧
    readType (createCustomAtom "REPLAYGAIN_TRACK_GAIN".toList "-8.50 dB".toList) 12 = some (strCodes "mean") ∧
    readU32 (createCustomAtom "REPLAYGAIN_TRACK_GAIN".toList "-8.50 dB".toList) 16 = some 0 ∧
    ((createCustomAtom "REPLAYGAIN_TRACK_GAIN".toList "-8.50 dB".toList).drop 20).take 16 = strCodes "com.apple.iTunes" ∧
    readU32 (createCustomAtom "REPLAYGAIN_TRACK_GAIN".toList "-8.50 dB".toList) 36 = some 33 ∧
    readType (createCustomAtom "REPLAYGAIN_TRACK_GAIN".toList "-8.50 dB".toList) 40 = some (strCodes "name") ∧
    readU32 (createCustomAtom "REPLAYGAIN_TRACK_GAIN".toList "-8.50 dB".toList) 44 = some 0 ∧
    ((createCustomAtom "REPLAYGAIN_TRACK_GAIN".toList "-8.50 dB".toList).drop 48).take 21 = strCodes "REPLAYGAIN_TRACK_GAIN" ∧
    readU32 (createCustomAtom "REPLAYGAIN_TRACK_GAIN".toList "-8.50 dB".toList) 69 = some 24 ∧
    readType (createCustomAtom "REPLAYGAIN_TRACK_GAIN".toList "-8.50 dB".toList) 73 = some (strCodes "data") ∧
    readU32 (createCustomAtom "REPLAYGAIN_TRACK_GAIN".toList "-8.50 dB".toList) 77 = some 1 ∧
    readU32 (createCustomAtom "REPLAYGAIN_TRACK_GAIN".toList "-8.50 dB".toList) 81 = some 0 ∧
    ((createCustomAtom "REPLAYGAIN_TRACK_GAIN".toList "-8.50 dB".toList).drop 85).take 8 = strCodes "-8.50 dB" ∧
    parseCustomAtom (createCustomAtom "REPLAYGAIN_TRACK_GAIN".toList "-8.50 dB".toList) =
      some ("REPLAYGAIN_TRACK_GAIN".toList, "-8.50 dB".toList) := by
  decide

/-! ## Claim C5 -/

/-- C5 counterexample: for a payload on which base64/JSON/XML decoding
    throws, `getStreamInfo` catches the error and returns the silent empty
    result (`streamUrl = ''`, `streamUrls = []`) instead of failing with a
    `ManifestDecodeError` — refuting "decoding never silently yields an
    empty result in these cases" (no `ManifestDecodeError` exists anywhere
    in the code). -/
theorem c5_invalid_silent_counterexample :
    decodeManifest ManifestPayload.invalid = ([], []) := by
  decide

/-- C5 (amended): manifest decoding raises nothing; it yields the empty
    result (`streamUrl = ''` and `streamUrls = []`) for an undecodable
    payload and for a DASH payload in which none of BaseURL,
    SegmentTemplate media, SegmentTemplate initialization, or
    `Representation BaseURL` is found; the error surfaces only at the
    caller in downloader.ts, whose emptiness check
    (`couldNotGetStreamUrl`) then throws `'Could not get stream URL'`,
    which is what makes the track fatal. -/
theorem c5_empty_result (d : DashDoc)
    (hb : truthyStr d.baseURL = false)
    (hm : truthyStr (d.template.bind SegTemplate.media) = false)
    (hi : truthyStr (d.template.bind SegTemplate.initialization) = false)
    (hr : truthyStr d.repBaseURL = false) :
    decodeManifest (ManifestPayload.dash d) = ([], []) ∧
    couldNotGetStreamUrl (decodeManifest (ManifestPayload.dash d)) = true ∧
    decodeManifest ManifestPayload.invalid = ([], []) ∧
    couldNotGetStreamUrl (decodeManifest ManifestPayload.invalid) = true := by
  have hd : decodeManifest (ManifestPayload.dash d) = ([], []) := by
    show decodeDashLib d = ([], [])
    rw [decodeDashLib]
    rw [if_neg (by rw [hb]; exact Bool.false_ne_true)]
    simp only [hm, hi, Bool.false_and, Bool.false_eq_true, if_false]
    rw [if_pos (by decide), if_neg (by rw [hr]; exact Bool.false_ne_true)]
  refine ⟨hd, ?_, rfl, rfl⟩
  rw [hd]
  rfl

/-- C5 witness: the theorem applied to the DASH document with no BaseURL,
    no SegmentTemplate and no Representation BaseURL. -/
theorem c5_empty_result_witness :
    decodeManifest (ManifestPayload.dash ⟨none, none, none⟩) = ([], []) ∧
    couldNotGetStreamUrl
      (decodeManifest (ManifestPayload.dash ⟨none, none, none⟩)) = true := by
  have h := c5_empty_result ⟨none, none, none⟩ rfl rfl rfl rfl
  exact ⟨h.1, h.2.1⟩

/-! ## Claims C6 and C10: the segmented-template branch -/

/-- Evaluation of the DASH decoder in the `$Number$` segmented-template
    branch (no truthy BaseURL, media attribute present and containing the
    placeholder). -/
theorem decodeDashLib_segmented (d : DashDoc) (st : SegTemplate) (m : List Char)
    (hb : truthyStr d.baseURL = false)
    (ht : d.template = some st)
    (hm : st.media = some m)
    (hnum : hasSubstr m "$Number$".toList = true) :
    decodeDashLib d =
      (((List.range (2 + posRepeatSum st.sRepeats)).map
          (fun i => forceHttps (jsReplace m "$Number$".toList (natDecimal i)))).getD 0 [],
        (List.range (2 + posRepeatSum st.sRepeats)).map
          (fun i => forceHttps (jsReplace m "$Number$".toList (natDecimal i)))) := by
  have hm0 : m ≠ [] := by
    intro h
    subst h
    exact absurd hnum (by decide)
  have htr : truthyStr (some m) = true := by
    simp [truthyStr, hm0]
  rw [decodeDashLib, if_neg (by rw [hb]; exact Bool.false_ne_true)]
  simp only [ht, Option.some_bind, hm, htr, hnum, Option.isSome_some,
    Bool.and_self, Bool.true_and, Bool.and_true, if_true, Option.getD_some,
    Option.map_some']
  have hlen : 0 < ((List.range (2 + posRepeatSum st.sRepeats)).map
      (fun i => forceHttps (jsReplace m "$Number$".toList (natDecimal i)))).length := by
    simp only [List.length_map, List.length_range]
    omega
  rw [if_neg (by
    rw [if_pos hlen]
    intro h
    rw [Bool.and_eq_true] at h
    have h2 := of_decide_eq_true h.2
    rw [List.length_map, List.length_range] at h2
    omega)]
  rw [if_pos hlen]

/-- C6 counterexample: for the media template
    `http://h/seg$Number$.mp4` (no `S` elements, so count 2), entry 0 of
    the produced URL list is not the template with `$Number$` replaced by
    `0` — the decoder also rewrites the `http://` scheme to `https://`. -/
theorem c6_entry_counterexample :
    (decodeDashLib ⟨none, some ⟨none, some "http://h/seg$Number$.mp4".toList, []⟩,
        none⟩).2.getD 0 [] ≠ "http://h/seg0.mp4".toList ∧
    jsReplace "http://h/seg$Number$.mp4".toList "$Number$".toList (natDecimal 0) =
      "http://h/seg0.mp4".toList ∧
    (decodeDashLib ⟨none, some ⟨none, some "http://h/seg$Number$.mp4".toList, []⟩,
        none⟩).2.getD 0 [] = "https://h/seg0.mp4".toList := by
  refine ⟨?_, ?_, ?_⟩ <;> decide

/-- C6 (amended): whenever the decoder reaches the SegmentTemplate
    fallback (no truthy BaseURL) with a media attribute containing
    `$Number$`, the URL list has exactly `2 + (sum of the parsed r
    attribute values over the S children with r > 0)` entries — in
    particular 10 for r values [0, 3, 0, 5] — and entry `i` is the media
    template with its first `$Number$` occurrence replaced by the decimal
    representation of `i` and a leading `http://` scheme replaced by
    `https://`. -/
theorem c6_segment_count (d : DashDoc) (st : SegTemplate) (m : List Char)
    (hb : truthyStr d.baseURL = false)
    (ht : d.template = some st)
    (hm : st.media = some m)
    (hnum : hasSubstr m "$Number$".toList = true) :
    (decodeDashLib d).2.length = 2 + posRepeatSum st.sRepeats ∧
    ∀ i, i < 2 + posRepeatSum st.sRepeats →
      (decodeDashLib d).2.getD i [] =
        forceHttps (jsReplace m "$Number$".toList (natDecimal i)) := by
  rw [decodeDashLib_segmented d st m hb ht hm hnum]
  constructor
  · simp
  · intro i hi
    rw [List.getD_eq_getElem?_getD, List.getElem?_map,
      List.getElem?_range (by exact hi)]
    rfl

/-- C6 witness: S elements with r attributes ["0", "3", "0", "5"] give
    segment count 10, and entry 3 is the substituted template. -/
theorem c6_segment_count_witness :
    (decodeDashLib ⟨none, some ⟨none, some "https://h/$Number$.flac".toList,
        [some "0".toList, some "3".toList, some "0".toList, some "5".toList]⟩,
        none⟩).2.length = 10 ∧
    (decodeDashLib ⟨none, some ⟨none, some "https://h/$Number$.flac".toList,
        [some "0".toList, some "3".toList, some "0".toList, some "5".toList]⟩,
        none⟩).2.getD 3 [] =
      forceHttps (jsReplace "https://h/$Number$.flac".toList "$Number$".toList
        (natDecimal 3)) := by
  have h := c6_segment_count
    ⟨none, some ⟨none, some "https://h/$Number$.flac".toList,
      [some "0".toList, some "3".toList, some "0".toList, some "5".toList]⟩, none⟩
    ⟨none, some "https://h/$Number$.flac".toList,
      [some "0".toList, some "3".toList, some "0".toList, some "5".toList]⟩
    "https://h/$Number$.flac".toList rfl rfl rfl (by decide)
  constructor
  · rw [h.1]
    decide
  · exact h.2 3 (by decide)

/-- Evaluation of the part_008 duplicate DASH decoder in the `$Number$`
    segmented-template branch (no truthy BaseURL, media attribute present
    and containing the placeholder): identical to the web-ui decoder's
    branch except for the absent scheme rewriting. -/
theorem decodeDashPart8_segmented (d : DashDoc) (st : SegTemplate) (m : List Char)
    (hb : truthyStr d.baseURL = false)
    (ht : d.template = some st)
    (hm : st.media = some m)
    (hnum : hasSubstr m "$Number$".toList = true) :
    decodeDashPart8 d =
      (((List.range (2 + posRepeatSum st.sRepeats)).map
          (fun i => jsReplace m "$Number$".toList (natDecimal i))).getD 0 [],
        (List.range (2 + posRepeatSum st.sRepeats)).map
          (fun i => jsReplace m "$Number$".toList (natDecimal i))) := by
  have hm0 : m ≠ [] := by
    intro h
    subst h
    exact absurd hnum (by decide)
  have htr : truthyStr (some m) = true := by
    simp [truthyStr, hm0]
  rw [decodeDashPart8, if_neg (by rw [hb]; exact Bool.false_ne_true)]
  simp only [ht, Option.some_bind, hm, htr, hnum, Option.isSome_some,
    Bool.and_self, Bool.true_and, Bool.and_true, if_true, Option.getD_some,
    Option.map_some']
  have hlen : 0 < ((List.range (2 + posRepeatSum st.sRepeats)).map
      (fun i => jsReplace m "$Number$".toList (natDecimal i))).length := by
    simp only [List.length_map, List.length_range]
    omega
  rw [if_neg (by
    rw [if_pos hlen]
    intro h
    rw [Bool.and_eq_true] at h
    have h2 := of_decide_eq_true h.2
    rw [List.length_map, List.length_range] at h2
    omega)]
  rw [if_pos hlen]

/-- C10: whenever `getStreamInfo` takes the segmented-template branch —
    in the decoder of src/web-ui/lib/tidal-client.ts and equally in the
    older duplicate of src/unnamed/part_008 — the resulting `streamUrls`
    list is non-empty with length at least 2 (the count starts at 2 even
    with no S elements or no positive r), and the scalar `streamUrl` is
    its first element. -/
theorem c10_segmented_nonempty (d : DashDoc) (st : SegTemplate) (m : List Char)
    (hb : truthyStr d.baseURL = false)
    (ht : d.template = some st)
    (hm : st.media = some m)
    (hnum : hasSubstr m "$Number$".toList = true) :
    (2 ≤ (decodeDashLib d).2.length ∧ (decodeDashLib d).2 ≠ [] ∧
      (decodeDashLib d).1 = (decodeDashLib d).2.getD 0 []) ∧
    (2 ≤ (decodeDashPart8 d).2.length ∧ (decodeDashPart8 d).2 ≠ [] ∧
      (decodeDashPart8 d).1 = (decodeDashPart8 d).2.getD 0 []) := by
  constructor
  · rw [decodeDashLib_segmented d st m hb ht hm hnum]
    refine ⟨by simp, ?_, rfl⟩
    intro hcon
    have hlen : (List.range (2 + posRepeatSum st.sRepeats)).map
        (fun i => forceHttps (jsReplace m "$Number$".toList (natDecimal i))) = [] :=
      hcon
    have hc := congrArg List.length hlen
    simp at hc
  · rw [decodeDashPart8_segmented d st m hb ht hm hnum]
    refine ⟨by simp, ?_, rfl⟩
    intro hcon
    have hlen : (List.range (2 + posRepeatSum st.sRepeats)).map
        (fun i => jsReplace m "$Number$".toList (natDecimal i)) = [] := hcon
    have hc := congrArg List.length hlen
    simp at hc

/-- C10 witness: a SegmentTemplate with an empty SegmentTimeline still
    yields two segment URLs in both decoders, the first being the scalar
    streamUrl. -/
theorem c10_segmented_nonempty_witness :
    (2 ≤ (decodeDashLib ⟨none, some ⟨none, some "https://x/$Number$".toList, []⟩,
        none⟩).2.length ∧
      (decodeDashLib ⟨none, some ⟨none, some "https://x/$Number$".toList, []⟩,
        none⟩).1 =
        (decodeDashLib ⟨none, some ⟨none, some "https://x/$Number$".toList, []⟩,
          none⟩).2.getD 0 []) ∧
    (2 ≤ (decodeDashPart8 ⟨none, some ⟨none, some "https://x/$Number$".toList, []⟩,
        none⟩).2.length ∧
      (decodeDashPart8 ⟨none, some ⟨none, some "https://x/$Number$".toList, []⟩,
        none⟩).1 =
        (decodeDashPart8 ⟨none, some ⟨none, some "https://x/$Number$".toList, []⟩,
          none⟩).2.getD 0 []) := by
  have h := c10_segmented_nonempty
    ⟨none, some ⟨none, some "https://x/$Number$".toList, []⟩, none⟩
    ⟨none, some "https://x/$Number$".toList, []⟩
    "https://x/$Number$".toList rfl rfl rfl (by decide)
  exact ⟨⟨h.1.1, h.1.2.2⟩, ⟨h.2.1, h.2.2.2⟩⟩

/-! ## Claim C9: scheme normalization -/

theorem prefixSplitRight {pat A B : List Char} (h : pat <+: A ++ B)
    (hle : A.length ≤ pat.length) : pat.drop A.length <+: B := by
  obtain ⟨r, hr⟩ := h
  refine ⟨r, ?_⟩
  have hd := congrArg (List.drop A.length) hr
  rw [List.drop_append_eq_append_drop, Nat.sub_eq_zero_of_le hle,
    List.drop_zero, List.drop_left] at hd
  exact hd

theorem prefixOfAppendLeft {pat A B : List Char} (h : pat <+: A ++ B)
    (hge : pat.length ≤ A.length) : pat <+: A := by
  obtain ⟨r, hr⟩ := h
  have ht := congrArg (List.take pat.length) hr
  rw [List.take_left, List.take_append_of_le_length hge] at ht
  have hp := List.take_prefix pat.length A
  rwa [← ht] at hp

/-- Where `String.replace` acts: either the pattern occurs nowhere and the
    string is unchanged, or there is a first occurrence position `p` and
    exactly that occurrence is substituted. -/
theorem jsReplace_cases (pat rep : List Char) (hpat : pat ≠ []) (s : List Char) :
    (jsReplace s pat rep = s ∧ ∀ p, ¬ pat <+: s.drop p) ∨
    (∃ p, p + pat.length ≤ s.length ∧ pat <+: s.drop p ∧
      (∀ q, q < p → ¬ pat <+: s.drop q) ∧
      jsReplace s pat rep = s.take p ++ (rep ++ s.drop (p + pat.length))) := by
  induction s with
  | nil =>
    left
    constructor
    · rw [jsReplace, if_neg (by simp [List.isEmpty_iff, hpat])]
    · intro p hp
      rw [List.drop_nil] at hp
      exact hpat (List.prefix_nil.mp hp)
  | cons c t ih =>
    by_cases hp : pat <+: (c :: t)
    · right
      refine ⟨0, ?_, by simpa using hp, ?_, ?_⟩
      · have h := hp.length_le
        simp only [List.length_cons] at h ⊢
        omega
      · intro q hq
        exact absurd hq (Nat.not_lt_zero q)
      · rw [jsReplace, if_pos (by rw [ List.isPrefixOf_iff_prefix]; exact hp)]
        rw [List.take_zero, List.nil_append, Nat.zero_add]
    · rcases ih with ⟨he, hno⟩ | ⟨p, hlen, hpre, hmin, heq⟩
      · left
        constructor
        · rw [jsReplace, if_neg (by rw [ List.isPrefixOf_iff_prefix]; exact hp), he]
        · intro p
          cases p with
          | zero => simpa using hp
          | succ p => simpa using hno p
      · right
        refine ⟨p + 1, ?_, by simpa using hpre, ?_, ?_⟩
        · simp only [List.length_cons]
          omega
        · intro q hq
          cases q with
          | zero => simpa using hp
          | succ q => simpa using hmin q (by omega)
        · rw [jsReplace, if_neg (by rw [ List.isPrefixOf_iff_prefix]; exact hp), heq]
          have e : p + 1 + pat.length = (p + pat.length) + 1 := by omega
          rw [e, List.take_succ_cons, List.drop_succ_cons, List.cons_append]

theorem forceHttps_of_http (s : List Char)
    (h : "http://".toList.isPrefixOf s = true) :
    forceHttps s = "https://".toList ++ s.drop 7 := by
  cases s with
  | nil => exact absurd h (by decide)
  | cons c t =>
    have h7 : ("http://".toList : List Char).length = 7 := by decide
    rw [forceHttps, jsReplace, if_pos h, h7]

/-- No suffix of `http://` obtained by dropping 0-6 leading characters is
    a prefix of `https://` followed by anything. -/
theorem no_http_in_https (k : Nat) (hk : k ≤ 6) (z : List Char) :
    ¬ ("http://".toList.drop k <+: "https://".toList ++ z) := by
  have e1 : ("http://".toList : List Char) = ['h', 't', 't', 'p', ':', '/', '/'] := by
    decide
  have e2 : ("https://".toList : List Char) =
      ['h', 't', 't', 'p', 's', ':', '/', '/'] := by decide
  rw [e1, e2]
  interval_cases k <;>
    · intro hc
      simp [List.cons_prefix_cons] at hc

/-- The output of `forceHttps` never starts with `http://`: a leading
    occurrence is rewritten to `https://`, and a later first occurrence
    leaves the (non-matching) prefix in place. -/
theorem forceHttps_never_http (s : List Char) :
    "http://".toList.isPrefixOf (forceHttps s) = false := by
  have h7 : ("http://".toList : List Char).length = 7 := by decide
  cases hb : "http://".toList.isPrefixOf (forceHttps s) with
  | false => rfl
  | true =>
    exfalso
    have hcon : "http://".toList <+: forceHttps s :=
      ( List.isPrefixOf_iff_prefix).mp hb
    have hpat : ("http://".toList : List Char) ≠ [] := by decide
    rcases jsReplace_cases "http://".toList "https://".toList hpat s with
      ⟨he, hno⟩ | ⟨p, hlen, hpre, hmin, heq⟩
    · rw [forceHttps, he] at hcon
      exact hno 0 (by simpa using hcon)
    · rw [forceHttps, heq] at hcon
      rw [h7] at hlen
      by_cases hp7 : 7 ≤ p
      · have hA : ("http://".toList : List Char).length ≤ (s.take p).length := by
          rw [h7]
          simp only [List.length_take]
          omega
        have h1 : "http://".toList <+: s.take p := prefixOfAppendLeft hcon hA
        have h2 : "http://".toList <+: s := h1.trans ( List.take_prefix p s)
        exact hmin 0 (by omega) (by simpa using h2)
      · have hA2 : (s.take p).length ≤ ("http://".toList : List Char).length := by
          rw [h7]
          simp only [List.length_take]
          omega
        have h3 := prefixSplitRight hcon hA2
        have hlen2 : (s.take p).length = p := by
          simp only [List.length_take]
          omega
        rw [hlen2, h7] at h3
        exact no_http_in_https p (by omega) _ h3

theorem getD_zero_range_map (n : Nat) (g : Nat → List Char) (hn : 0 < n) :
    ((List.range n).map (fun i => forceHttps (g i))).getD 0 [] = forceHttps (g 0) := by
  rw [List.getD_eq_getElem?_getD, List.getElem?_map, List.getElem?_range hn]
  rfl

/-- Every URL the web-ui DASH decoder produces is empty or an application
    of `forceHttps`. -/
theorem decodeDashLib_shape (d : DashDoc) :
    ((decodeDashLib d).1 = [] ∨ ∃ s, (decodeDashLib d).1 = forceHttps s) ∧
    ∀ v ∈ (decodeDashLib d).2, ∃ s, v = forceHttps s := by
  simp only [decodeDashLib]
  repeat' split
  all_goals
    refine ⟨?_, ?_⟩
  all_goals
    first
    | exact Or.inl rfl
    | exact Or.inr ⟨_, rfl⟩
    | exact Or.inr ⟨_, getD_zero_range_map _ _ (by omega)⟩
    | (intro v hv
       first
       | (obtain ⟨i, hi, hvi⟩ := List.mem_map.mp hv
          exact ⟨_, hvi.symm⟩)
       | simp at hv)

theorem decodeManifest_shape (m : ManifestPayload) :
    ((decodeManifest m).1 = [] ∨ ∃ s, (decodeManifest m).1 = forceHttps s) ∧
    ∀ v ∈ (decodeManifest m).2, ∃ s, v = forceHttps s := by
  cases m with
  | invalid => exact ⟨Or.inl rfl, fun v hv => absurd hv (List.not_mem_nil v)⟩
  | unknownMime => exact ⟨Or.inl rfl, fun v hv => absurd hv (List.not_mem_nil v)⟩
  | bts urls => exact ⟨Or.inr ⟨_, rfl⟩, fun v hv => absurd hv (List.not_mem_nil v)⟩
  | dash d => exact decodeDashLib_shape d

/-- C9 (amended, restricted to the decoder in
    src/web-ui/lib/tidal-client.ts): every URL supplied with an `http://`
    scheme appears with an `https://` scheme (`forceHttps` rewrites a
    leading `http://` to `https://`), and no URL produced by the web-ui
    manifest decoder — the scalar streamUrl or any streamUrls entry —
    begins with `http://`.  The older duplicate decoder in
    src/unnamed/part_008 does not normalize schemes (see the
    counterexample). -/
theorem c9_https_scheme :
    (∀ s : List Char, "http://".toList.isPrefixOf s = true →
      forceHttps s = "https://".toList ++ s.drop 7) ∧
    ∀ m : ManifestPayload,
      "http://".toList.isPrefixOf (decodeManifest m).1 = false ∧
      ∀ v ∈ (decodeManifest m).2,
        "http://".toList.isPrefixOf v = false := by
  constructor
  · exact forceHttps_of_http
  · intro m
    obtain ⟨h1, h2⟩ := decodeManifest_shape m
    constructor
    · rcases h1 with h | ⟨s, hs⟩
      · rw [h]
        decide
      · rw [hs]
        exact forceHttps_never_http s
    · intro v hv
      obtain ⟨s, hs⟩ := h2 v hv
      rw [hs]
      exact forceHttps_never_http s

/-- C9 witness: a BTS manifest URL with an `http://` scheme is produced
    with `https://` by the web-ui decoder. -/
theorem c9_https_scheme_witness :
    forceHttps "http://a/x".toList =
      "https://".toList ++ "http://a/x".toList.drop 7 ∧
    "http://".toList.isPrefixOf
      (decodeManifest (ManifestPayload.bts ["http://a/x".toList])).1 = false := by
  have h := c9_https_scheme
  exact ⟨h.1 "http://a/x".toList (by decide),
    (h.2 (ManifestPayload.bts ["http://a/x".toList])).1⟩

/-- C9 counterexample: the duplicate decoder in src/unnamed/part_008
    returns the BTS URL `http://x/seg` verbatim — a produced URL retains
    the `http://` scheme, refuting the claim over the whole codebase. -/
theorem c9_part8_counterexample :
    (decodeManifestPart8 (ManifestPayload.bts ["http://x/seg".toList])).1 =
      "http://x/seg".toList ∧
    "http://".toList.isPrefixOf
      (decodeManifestPart8 (ManifestPayload.bts ["http://x/seg".toList])).1 = true := by
  refine ⟨?_, ?_⟩ <;> decide

/-! ## Claim C8: the input buffer is never written -/

theorem writeBytes_outT_fileB {st st' : PatchState} {pos : Nat} {bs : List Nat}
    (h : writeBytes st .outT pos bs = some st') : st'.fileB = st.fileB := by
  rw [writeBytes] at h
  cases hs : setBytesAt st.outB pos bs with
  | none =>
    rw [hs] at h
    cases h
  | some l =>
    rw [hs] at h
    simp only [Option.map_some'] at h
    cases h
    rfl

theorem setU32St_outT_fileB {st st' : PatchState} {off v : Nat}
    (h : setU32St st .outT off v = some st') : st'.fileB = st.fileB :=
  writeBytes_outT_fileB h

theorem writeAtoms_fileB :
    ∀ (atoms : List (List Nat)) (st : PatchState) (pos : Nat)
      (st' : PatchState) (pos' : Nat),
      writeAtoms st pos atoms = some (st', pos') → st'.fileB = st.fileB := by
  intro atoms
  induction atoms with
  | nil =>
    intro st pos st' pos' h
    rw [writeAtoms] at h
    cases h
    rfl
  | cons a rest ih =>
    intro st pos st' pos' h
    rw [writeAtoms] at h
    cases hw : writeBytes st .outT pos a with
    | none =>
      rw [hw] at h
      cases h
    | some st1 =>
      rw [hw] at h
      simp only [] at h
      rw [ih st1 (pos + a.length) st' pos' h]
      exact writeBytes_outT_fileB hw

theorem injectBuild_fileB (f : List Nat) (tags : List (List Char × List Char))
    (mo M uo U eo E io I : Nat) (p : PatchState × List Nat)
    (h : injectBuild f tags mo M uo U eo E io I = some p) : p.1.fileB = f := by
  simp only [injectBuild] at h
  by_cases hadd : addedSizeOf tags = 0
  · rw [if_pos hadd] at h
    cases h
    rfl
  · rw [if_neg hadd] at h
    cases h1 : writeBytes ⟨f, List.replicate (f.length + addedSizeOf tags) 0⟩
        .outT 0 (f.take (io + I)) with
    | none => rw [h1] at h; cases h
    | some st1 =>
      rw [h1] at h
      simp only [] at h
      cases h2 : writeAtoms st1 (io + I) (tagAtoms tags) with
      | none => rw [h2] at h; cases h
      | some sp2 =>
        rw [h2] at h
        simp only [] at h
        cases h3 : writeBytes sp2.1 .outT sp2.2 (f.drop (io + I)) with
        | none => rw [h3] at h; cases h
        | some st3 =>
          rw [h3] at h
          simp only [] at h
          cases h4 : setU32St st3 .outT io (I + addedSizeOf tags) with
          | none => rw [h4] at h; cases h
          | some st4 =>
            rw [h4] at h
            simp only [] at h
            cases h5 : setU32St st4 .outT eo (E + addedSizeOf tags) with
            | none => rw [h5] at h; cases h
            | some st5 =>
              rw [h5] at h
              simp only [] at h
              cases h6 : setU32St st5 .outT uo (U + addedSizeOf tags) with
              | none => rw [h6] at h; cases h
              | some st6 =>
                rw [h6] at h
                simp only [] at h
                cases h7 : setU32St st6 .outT mo (M + addedSizeOf tags) with
                | none => rw [h7] at h; cases h
                | some st7 =>
                  rw [h7] at h
                  simp only [] at h
                  cases h8 : findAtomE st7.fileB MDAT 0 st7.fileB.length with
                  | none => rw [h8] at h; cases h
                  | some x =>
                    rw [h8] at h
                    simp only [] at h
                    cases h
                    have e7 := setU32St_outT_fileB h7
                    have e6 := setU32St_outT_fileB h6
                    have e5 := setU32St_outT_fileB h5
                    have e4 := setU32St_outT_fileB h4
                    have e3 := writeBytes_outT_fileB h3
                    have e2 := writeAtoms_fileB (tagAtoms tags) st1 (io + I)
                      sp2.1 sp2.2 (by rw [h2])
                    have e1 := writeBytes_outT_fileB h1
                    rw [e7, e6, e5, e4, e3, e2, e1]

/-- C8: `injectReplayGain` never mutates its input buffer — whichever
    branch returns (missing-atom fallback, empty-tags fallback, or the
    fresh patched buffer), the file buffer component of the final state is
    byte-identical to the input; every write the source performs targets
    the newly allocated buffer (`BufTag.outT`). -/
theorem c8_no_input_mutation (f : List Nat) (tags : List (List Char × List Char))
    (p : PatchState × List Nat) (h : injectReplayGainSt f tags = some p) :
    p.1.fileB = f := by
  rw [injectReplayGainSt] at h
  cases g1 : findAtomE f MOOV 0 f.length with
  | none => rw [g1] at h; cases h
  | some o1 =>
    rw [g1] at h
    cases o1 with
    | none =>
      simp only [] at h
      cases h
      rfl
    | some mo =>
      simp only [] at h
      cases r1 : readU32 f mo with
      | none => rw [r1] at h; cases h
      | some M =>
        rw [r1] at h
        simp only [] at h
        cases g2 : findAtomE f UDTA (mo + 8) (mo + M) with
        | none => rw [g2] at h; cases h
        | some o2 =>
          rw [g2] at h
          cases o2 with
          | none =>
            simp only [] at h
            cases h
            rfl
          | some uo =>
            simp only [] at h
            cases r2 : readU32 f uo with
            | none => rw [r2] at h; cases h
            | some U =>
              rw [r2] at h
              simp only [] at h
              cases g3 : findAtomE f META (uo + 8) (uo + U) with
              | none => rw [g3] at h; cases h
              | some o3 =>
                rw [g3] at h
                cases o3 with
                | none =>
                  simp only [] at h
                  cases h
                  rfl
                | some eo =>
                  simp only [] at h
                  cases r3 : readU32 f eo with
                  | none => rw [r3] at h; cases h
                  | some E =>
                    rw [r3] at h
                    simp only [] at h
                    cases g4 : findAtomE f ILST (eo + 12) (eo + E) with
                    | none => rw [g4] at h; cases h
                    | some o4 =>
                      rw [g4] at h
                      cases o4 with
                      | none =>
                        simp only [] at h
                        cases h
                        rfl
                      | some io =>
                        simp only [] at h
                        cases r4 : readU32 f io with
                        | none => rw [r4] at h; cases h
                        | some I =>
                          rw [r4] at h
                          simp only [] at h
                          exact injectBuild_fileB f tags mo M uo U eo E io I p h

/-- C8 witness: the theorem applied to a 4-byte buffer (no `moov`), where
    the call returns the input unchanged. -/
theorem c8_no_input_mutation_witness :
    injectReplayGainSt [0, 0, 0, 0] [] = some (⟨[0, 0, 0, 0], []⟩, [0, 0, 0, 0]) ∧
    (⟨[0, 0, 0, 0], []⟩ : PatchState).fileB = [0, 0, 0, 0] := by
  refine ⟨by decide, ?_⟩
  exact c8_no_input_mutation [0, 0, 0, 0] [] (⟨[0, 0, 0, 0], []⟩, [0, 0, 0, 0])
    (by decide)

/-! ## The successful splice (claims C1 and C2) -/

theorem drop_replicate (i n : Nat) :
    (List.replicate n (0 : Nat)).drop i = List.replicate (n - i) 0 := by
  induction i generalizing n with
  | zero => rw [List.drop_zero, Nat.sub_zero]
  | succ i ih =>
    cases n with
    | zero => simp
    | succ n => rw [List.replicate_succ, List.drop_succ_cons, ih, Nat.succ_sub_succ]

theorem drop_append_offset (X Z : List Nat) (k : Nat) :
    (X ++ Z).drop (X.length + k) = Z.drop k := by
  rw [List.drop_append_eq_append_drop, List.drop_of_length_le (by omega),
    List.nil_append]
  congr 1
  omega

theorem setBytesAt_exact (X Z bs : List Nat) (hz : bs.length ≤ Z.length) :
    setBytesAt (X ++ Z) X.length bs = some (X ++ (bs ++ Z.drop bs.length)) := by
  rw [setBytesAt_eq_some (by simp only [List.length_append]; omega)]
  rw [List.take_left, drop_append_offset]

theorem setBytesAt_replicate_zero (m : Nat) (bs : List Nat) (h : bs.length ≤ m) :
    setBytesAt (List.replicate m 0) 0 bs =
      some (bs ++ List.replicate (m - bs.length) 0) := by
  rw [setBytesAt_eq_some (by simp only [List.length_replicate]; omega)]
  rw [List.take_zero, List.nil_append, Nat.zero_add, drop_replicate]

theorem flatten_tagAtoms_length (tags : List (List Char × List Char)) :
    (tagAtoms tags).flatten.length = addedSizeOf tags := by
  rw [List.length_flatten]
  rfl

/-- The atom-insertion loop writes the concatenation of the atoms over the
    zero slack following the copied prefix. -/
theorem writeAtoms_spec :
    ∀ (atoms : List (List Nat)) (st : PatchState) (X Z : List Nat),
      st.outB = X ++ Z → (atoms.map List.length).sum ≤ Z.length →
      writeAtoms st X.length atoms =
        some (⟨st.fileB, X ++ (atoms.flatten ++ Z.drop atoms.flatten.length)⟩,
          X.length + atoms.flatten.length) := by
  intro atoms
  induction atoms with
  | nil =>
    intro st X Z hout hlen
    rw [writeAtoms]
    simp only [List.flatten_nil, List.nil_append, List.drop_zero,
      List.length_nil, Nat.add_zero, ← hout]
  | cons a rest ih =>
    intro st X Z hout hlen
    simp only [List.map_cons, List.sum_cons] at hlen
    have hset : setBytesAt st.outB X.length a =
        some (X ++ (a ++ Z.drop a.length)) := by
      rw [hout]
      exact setBytesAt_exact X Z a (by omega)
    have hwb : writeBytes st .outT X.length a =
        some ⟨st.fileB, X ++ (a ++ Z.drop a.length)⟩ := by
      rw [writeBytes, hset]
      rfl
    rw [writeAtoms, hwb]
    simp only []
    have happ : X ++ (a ++ Z.drop a.length) = (X ++ a) ++ Z.drop a.length :=
      (List.append_assoc X a _).symm
    rw [happ]
    have ih' := ih ⟨st.fileB, (X ++ a) ++ Z.drop a.length⟩ (X ++ a)
      (Z.drop a.length) rfl (by simp only [List.length_drop]; omega)
    rw [List.length_append] at ih'
    rw [ih']
    simp [List.flatten_cons, List.append_assoc, List.drop_drop,
      List.length_append, Nat.add_assoc]

/-- Evaluation of steps 6-8 of `injectReplayGain` when the descent
    succeeded, the insertion is non-empty and the recorded end of `ilst`
    lies inside the buffer: the splice succeeds and produces
    `patchedBuffer`. -/
theorem injectBuild_found (f : List Nat) (tags : List (List Char × List Char))
    (mo M uo U eo E io I : Nat)
    (hK : ¬ addedSizeOf tags = 0)
    (hins : io + I ≤ f.length)
    (hmo : mo + 4 ≤ f.length) (huo : uo + 4 ≤ f.length)
    (heo : eo + 4 ≤ f.length) (hio : io + 4 ≤ f.length) :
    injectBuild f tags mo M uo U eo E io I =
      some (⟨f, patchedBuffer f tags mo M uo U eo E io I⟩,
        patchedBuffer f tags mo M uo U eo E io I) := by
  have hPlen : (f.take (io + I)).length = io + I := by
    simp only [List.length_take]
    omega
  have hAlen : (tagAtoms tags).flatten.length = addedSizeOf tags :=
    flatten_tagAtoms_length tags
  simp only [injectBuild]
  rw [if_neg hK]
  have hw1 : writeBytes ⟨f, List.replicate (f.length + addedSizeOf tags) 0⟩
      .outT 0 (f.take (io + I)) =
      some ⟨f, f.take (io + I) ++
        List.replicate (f.length + addedSizeOf tags - (io + I)) 0⟩ := by
    rw [writeBytes]
    simp only []
    rw [setBytesAt_replicate_zero _ _ (by rw [hPlen]; omega), hPlen]
    rfl
  rw [hw1]
  simp only []
  have hw2 := writeAtoms_spec (tagAtoms tags)
    ⟨f, f.take (io + I) ++
      List.replicate (f.length + addedSizeOf tags - (io + I)) 0⟩
    (f.take (io + I))
    (List.replicate (f.length + addedSizeOf tags - (io + I)) 0) rfl
    (by
      have hsum : ((tagAtoms tags).map List.length).sum = addedSizeOf tags := rfl
      rw [hsum, List.length_replicate]
      omega)
  rw [hPlen, hAlen] at hw2
  have hZdrop : (List.replicate (f.length + addedSizeOf tags - (io + I)) (0 : Nat)).drop
      (addedSizeOf tags) = List.replicate (f.length - (io + I)) 0 := by
    rw [drop_replicate]
    congr 1
    omega
  rw [hZdrop] at hw2
  rw [hw2]
  simp only []
  have hre : f.take (io + I) ++ ((tagAtoms tags).flatten ++
      List.replicate (f.length - (io + I)) 0) =
      (f.take (io + I) ++ (tagAtoms tags).flatten) ++
        List.replicate (f.length - (io + I)) 0 :=
    (List.append_assoc _ _ _).symm
  have hXlen : (f.take (io + I) ++ (tagAtoms tags).flatten).length =
      io + I + addedSizeOf tags := by
    simp only [List.length_append, hPlen, hAlen]
  have hSlen : (f.drop (io + I)).length = f.length - (io + I) := by
    simp only [List.length_drop]
  have hw3 : writeBytes ⟨f, f.take (io + I) ++ ((tagAtoms tags).flatten ++
      List.replicate (f.length - (io + I)) 0)⟩ .outT
      (io + I + addedSizeOf tags) (f.drop (io + I)) =
      some ⟨f, f.take (io + I) ++ (tagAtoms tags).flatten ++ f.drop (io + I)⟩ := by
    rw [writeBytes]
    simp only []
    rw [hre, ← hXlen,
      setBytesAt_exact _ _ _ (by rw [hSlen, List.length_replicate])]
    rw [hSlen, drop_replicate, Nat.sub_self, List.replicate_zero, List.append_nil]
    rfl
  rw [hw3]
  simp only []
  have hRlen : (f.take (io + I) ++ (tagAtoms tags).flatten ++ f.drop (io + I)).length =
      f.length + addedSizeOf tags := by
    simp only [List.length_append, hPlen, hAlen, List.length_drop]
    omega
  have hs4 : setU32St ⟨f, f.take (io + I) ++ (tagAtoms tags).flatten ++
      f.drop (io + I)⟩ .outT io (I + addedSizeOf tags) =
      some ⟨f, w32 (f.take (io + I) ++ (tagAtoms tags).flatten ++ f.drop (io + I))
        io (I + addedSizeOf tags)⟩ := by
    rw [setU32St, writeBytes]
    simp only []
    rw [setBytesAt_u32be (by rw [hRlen]; omega)]
    rfl
  rw [hs4]
  simp only []
  have hlen1 : (w32 (f.take (io + I) ++ (tagAtoms tags).flatten ++ f.drop (io + I))
      io (I + addedSizeOf tags)).length = f.length + addedSizeOf tags := by
    rw [length_w32 (by rw [hRlen]; omega), hRlen]
  have hs5 : setU32St ⟨f, w32 (f.take (io + I) ++ (tagAtoms tags).flatten ++
      f.drop (io + I)) io (I + addedSizeOf tags)⟩ .outT eo (E + addedSizeOf tags) =
      some ⟨f, w32 (w32 (f.take (io + I) ++ (tagAtoms tags).flatten ++
        f.drop (io + I)) io (I + addedSizeOf tags)) eo (E + addedSizeOf tags)⟩ := by
    rw [setU32St, writeBytes]
    simp only []
    rw [setBytesAt_u32be (by rw [hlen1]; omega)]
    rfl
  rw [hs5]
  simp only []
  have hlen2 : (w32 (w32 (f.take (io + I) ++ (tagAtoms tags).flatten ++
      f.drop (io + I)) io (I + addedSizeOf tags)) eo (E + addedSizeOf tags)).length =
      f.length + addedSizeOf tags := by
    rw [length_w32 (by rw [hlen1]; omega), hlen1]
  have hs6 : setU32St ⟨f, w32 (w32 (f.take (io + I) ++ (tagAtoms tags).flatten ++
      f.drop (io + I)) io (I + addedSizeOf tags)) eo (E + addedSizeOf tags)⟩ .outT
      uo (U + addedSizeOf tags) =
      some ⟨f, w32 (w32 (w32 (f.take (io + I) ++ (tagAtoms tags).flatten ++
        f.drop (io + I)) io (I + addedSizeOf tags)) eo (E + addedSizeOf tags))
        uo (U + addedSizeOf tags)⟩ := by
    rw [setU32St, writeBytes]
    simp only []
    rw [setBytesAt_u32be (by rw [hlen2]; omega)]
    rfl
  rw [hs6]
  simp only []
  have hlen3 : (w32 (w32 (w32 (f.take (io + I) ++ (tagAtoms tags).flatten ++
      f.drop (io + I)) io (I + addedSizeOf tags)) eo (E + addedSizeOf tags))
      uo (U + addedSizeOf tags)).length = f.length + addedSizeOf tags := by
    rw [length_w32 (by rw [hlen2]; omega), hlen2]
  have hs7 : setU32St ⟨f, w32 (w32 (w32 (f.take (io + I) ++
      (tagAtoms tags).flatten ++ f.drop (io + I)) io (I + addedSizeOf tags))
      eo (E + addedSizeOf tags)) uo (U + addedSizeOf tags)⟩ .outT
      mo (M + addedSizeOf tags) =
      some ⟨f, w32 (w32 (w32 (w32 (f.take (io + I) ++ (tagAtoms tags).flatten ++
        f.drop (io + I)) io (I + addedSizeOf tags)) eo (E + addedSizeOf tags))
        uo (U + addedSizeOf tags)) mo (M + addedSizeOf tags)⟩ := by
    rw [setU32St, writeBytes]
    simp only []
    rw [setBytesAt_u32be (by rw [hlen3]; omega)]
    rfl
  rw [hs7]
  simp only []
  cases hmd : findAtomE f MDAT 0 f.length with
  | none => exact absurd hmd (findAtomE_total (Nat.le_refl _))
  | some x =>
    simp only [patchedBuffer]

theorem readU32_some_bound {l : List Nat} {off v : Nat}
    (h : readU32 l off = some v) : off + 4 ≤ l.length := by
  rw [readU32] at h
  by_cases hb : off + 4 ≤ l.length
  · exact hb
  · rw [if_neg hb] at h
    cases h

/-- Full evaluation of `injectReplayGain` when the descent succeeds, the
    insertion is non-empty and the recorded `ilst` end is in bounds. -/
theorem inject_found (f : List Nat) (tags : List (List Char × List Char))
    (mo M uo U eo E io I : Nat)
    (h1 : findAtomE f MOOV 0 f.length = some (some mo))
    (hM : readU32 f mo = some M)
    (h2 : findAtomE f UDTA (mo + 8) (mo + M) = some (some uo))
    (hU : readU32 f uo = some U)
    (h3 : findAtomE f META (uo + 8) (uo + U) = some (some eo))
    (hE : readU32 f eo = some E)
    (h4 : findAtomE f ILST (eo + 12) (eo + E) = some (some io))
    (hI : readU32 f io = some I)
    (hK : ¬ addedSizeOf tags = 0)
    (hins : io + I ≤ f.length) :
    injectReplayGainSt f tags =
      some (⟨f, patchedBuffer f tags mo M uo U eo E io I⟩,
        patchedBuffer f tags mo M uo U eo E io I) := by
  rw [injectReplayGainSt, h1]
  simp only []
  rw [hM]
  simp only []
  rw [h2]
  simp only []
  rw [hU]
  simp only []
  rw [h3]
  simp only []
  rw [hE]
  simp only []
  rw [h4]
  simp only []
  rw [hI]
  simp only []
  exact injectBuild_found f tags mo M uo U eo E io I hK hins
    (readU32_some_bound hM) (readU32_some_bound hU)
    (readU32_some_bound hE) (readU32_some_bound hI)

theorem patchedBuffer_base_length (f : List Nat)
    (tags : List (List Char × List Char)) (io I : Nat)
    (hins : io + I ≤ f.length) :
    (f.take (io + I) ++ (tagAtoms tags).flatten ++ f.drop (io + I)).length =
      f.length + addedSizeOf tags := by
  simp only [List.length_append, List.length_take, List.length_drop,
    flatten_tagAtoms_length]
  omega

theorem patchedBuffer_length (f : List Nat) (tags : List (List Char × List Char))
    (mo M uo U eo E io I : Nat)
    (hins : io + I ≤ f.length) (h8 : 8 ≤ I)
    (ho1 : mo + 8 ≤ uo) (ho2 : uo + 8 ≤ eo) (ho3 : eo + 12 ≤ io) :
    (patchedBuffer f tags mo M uo U eo E io I).length =
      f.length + addedSizeOf tags := by
  have hb := patchedBuffer_base_length f tags io I hins
  have hl1 : (w32 (f.take (io + I) ++ (tagAtoms tags).flatten ++ f.drop (io + I))
      io (I + addedSizeOf tags)).length = f.length + addedSizeOf tags := by
    rw [length_w32 (by rw [hb]; omega), hb]
  have hl2 : (w32 (w32 (f.take (io + I) ++ (tagAtoms tags).flatten ++
      f.drop (io + I)) io (I + addedSizeOf tags)) eo
      (E + addedSizeOf tags)).length = f.length + addedSizeOf tags := by
    rw [length_w32 (by rw [hl1]; omega), hl1]
  have hl3 : (w32 (w32 (w32 (f.take (io + I) ++ (tagAtoms tags).flatten ++
      f.drop (io + I)) io (I + addedSizeOf tags)) eo (E + addedSizeOf tags))
      uo (U + addedSizeOf tags)).length = f.length + addedSizeOf tags := by
    rw [length_w32 (by rw [hl2]; omega), hl2]
  simp only [patchedBuffer]
  rw [length_w32 (by rw [hl3]; omega), hl3]

theorem patchedBuffer_reads (f : List Nat) (tags : List (List Char × List Char))
    (mo M uo U eo E io I : Nat)
    (hins : io + I ≤ f.length) (h8 : 8 ≤ I)
    (ho1 : mo + 8 ≤ uo) (ho2 : uo + 8 ≤ eo) (ho3 : eo + 12 ≤ io) :
    readU32 (patchedBuffer f tags mo M uo U eo E io I) io =
      some ((I + addedSizeOf tags) % 4294967296) ∧
    readU32 (patchedBuffer f tags mo M uo U eo E io I) eo =
      some ((E + addedSizeOf tags) % 4294967296) ∧
    readU32 (patchedBuffer f tags mo M uo U eo E io I) uo =
      some ((U + addedSizeOf tags) % 4294967296) ∧
    readU32 (patchedBuffer f tags mo M uo U eo E io I) mo =
      some ((M + addedSizeOf tags) % 4294967296) := by
  have hb := patchedBuffer_base_length f tags io I hins
  have hl1 : (w32 (f.take (io + I) ++ (tagAtoms tags).flatten ++ f.drop (io + I))
      io (I + addedSizeOf tags)).length = f.length + addedSizeOf tags := by
    rw [length_w32 (by rw [hb]; omega), hb]
  have hl2 : (w32 (w32 (f.take (io + I) ++ (tagAtoms tags).flatten ++
      f.drop (io + I)) io (I + addedSizeOf tags)) eo
      (E + addedSizeOf tags)).length = f.length + addedSizeOf tags := by
    rw [length_w32 (by rw [hl1]; omega), hl1]
  have hl3 : (w32 (w32 (w32 (f.take (io + I) ++ (tagAtoms tags).flatten ++
      f.drop (io + I)) io (I + addedSizeOf tags)) eo (E + addedSizeOf tags))
      uo (U + addedSizeOf tags)).length = f.length + addedSizeOf tags := by
    rw [length_w32 (by rw [hl2]; omega), hl2]
  simp only [patchedBuffer]
  refine ⟨?_, ?_, ?_, ?_⟩
  · rw [readU32_w32_disjoint (Or.inr (by omega)) (by rw [hl3]; omega),
      readU32_w32_disjoint (Or.inr (by omega)) (by rw [hl2]; omega),
      readU32_w32_disjoint (Or.inr (by omega)) (by rw [hl1]; omega),
      readU32_w32_self (by rw [hb]; omega)]
  · rw [readU32_w32_disjoint (Or.inr (by omega)) (by rw [hl3]; omega),
      readU32_w32_disjoint (Or.inr (by omega)) (by rw [hl2]; omega),
      readU32_w32_self (by rw [hl1]; omega)]
  · rw [readU32_w32_disjoint (Or.inr (by omega)) (by rw [hl3]; omega),
      readU32_w32_self (by rw [hl2]; omega)]
  · rw [readU32_w32_self (by rw [hl3]; omega)]

/-! ## Claim C1 -/

/-- C1 (amended): whenever the `moov → udta → meta → ilst` descent
    succeeds, the serialized insertion length K is positive, and
    additionally the recorded end of `ilst` (`ilstOffset + ilstSize`) lies
    within the buffer, `injectReplayGain` returns a fresh buffer of length
    `original + K` whose 4-byte big-endian size fields at the unchanged
    offsets of ilst, meta, udta and moov read their previous value plus K
    (as 32-bit values, i.e. mod 2^32); without the in-bounds proviso the
    splice can throw a RangeError (see the counterexample). -/
theorem c1_size_fields (f : List Nat) (tags : List (List Char × List Char))
    (mo M uo U eo E io I : Nat)
    (h1 : findAtomE f MOOV 0 f.length = some (some mo))
    (hM : readU32 f mo = some M)
    (h2 : findAtomE f UDTA (mo + 8) (mo + M) = some (some uo))
    (hU : readU32 f uo = some U)
    (h3 : findAtomE f META (uo + 8) (uo + U) = some (some eo))
    (hE : readU32 f eo = some E)
    (h4 : findAtomE f ILST (eo + 12) (eo + E) = some (some io))
    (hI : readU32 f io = some I)
    (hK : 0 < addedSizeOf tags)
    (hins : io + I ≤ f.length) :
    ∃ r : List Nat,
      injectReplayGainSt f tags = some (⟨f, r⟩, r) ∧
      r.length = f.length + addedSizeOf tags ∧
      readU32 r io = some ((I + addedSizeOf tags) % 4294967296) ∧
      readU32 r eo = some ((E + addedSizeOf tags) % 4294967296) ∧
      readU32 r uo = some ((U + addedSizeOf tags) % 4294967296) ∧
      readU32 r mo = some ((M + addedSizeOf tags) % 4294967296) := by
  have ho1 : mo + 8 ≤ uo := findAtomE_ge h2
  have ho2 : uo + 8 ≤ eo := findAtomE_ge h3
  have ho3 : eo + 12 ≤ io := findAtomE_ge h4
  have h8 : 8 ≤ I := by
    obtain ⟨sz, hsz, hs8, -, -⟩ := findAtomE_found h4
    rw [hI] at hsz
    cases hsz
    exact hs8
  obtain ⟨hr1, hr2, hr3, hr4⟩ :=
    patchedBuffer_reads f tags mo M uo U eo E io I hins h8 ho1 ho2 ho3
  exact ⟨patchedBuffer f tags mo M uo U eo E io I,
    inject_found f tags mo M uo U eo E io I h1 hM h2 hU h3 hE h4 hI
      (by omega) hins,
    patchedBuffer_length f tags mo M uo U eo E io I hins h8 ho1 ho2 ho3,
    hr1, hr2, hr3, hr4⟩

/-- C1 witness: a 40-byte nested moov/udta/meta/ilst buffer and the tag
    ("K", "V") (insertion length 66): the patched buffer is 106 bytes and
    the four size fields read 106, 98, 90, 78. -/
theorem c1_size_fields_witness :
    ∃ r : List Nat,
      injectReplayGainSt
          [0, 0, 0, 40, 109, 111, 111, 118,
           0, 0, 0, 32, 117, 100, 116, 97,
           0, 0, 0, 24, 109, 101, 116, 97,
           0, 0, 0, 0,
           0, 0, 0, 12, 105, 108, 115, 116,
           0, 0, 0, 0] [("K".toList, "V".toList)] =
        some (⟨[0, 0, 0, 40, 109, 111, 111, 118,
           0, 0, 0, 32, 117, 100, 116, 97,
           0, 0, 0, 24, 109, 101, 116, 97,
           0, 0, 0, 0,
           0, 0, 0, 12, 105, 108, 115, 116,
           0, 0, 0, 0], r⟩, r) ∧
      r.length = [0, 0, 0, 40, 109, 111, 111, 118,
           0, 0, 0, 32, 117, 100, 116, 97,
           0, 0, 0, 24, 109, 101, 116, 97,
           0, 0, 0, 0,
           0, 0, 0, 12, 105, 108, 115, 116,
           0, 0, 0, 0].length + addedSizeOf [("K".toList, "V".toList)] ∧
      readU32 r 28 = some ((12 + addedSizeOf [("K".toList, "V".toList)]) % 4294967296) ∧
      readU32 r 16 = some ((24 + addedSizeOf [("K".toList, "V".toList)]) % 4294967296) ∧
      readU32 r 8 = some ((32 + addedSizeOf [("K".toList, "V".toList)]) % 4294967296) ∧
      readU32 r 0 = some ((40 + addedSizeOf [("K".toList, "V".toList)]) % 4294967296) :=
  c1_size_fields
    [0, 0, 0, 40, 109, 111, 111, 118,
     0, 0, 0, 32, 117, 100, 116, 97,
     0, 0, 0, 24, 109, 101, 116, 97,
     0, 0, 0, 0,
     0, 0, 0, 12, 105, 108, 115, 116,
     0, 0, 0, 0] [("K".toList, "V".toList)]
    0 40 8 32 16 24 28 12
    (by decide) (by decide) (by decide) (by decide) (by decide) (by decide)
    (by decide) (by decide) (by decide) (by decide)

/-- C1 counterexample: a 40-byte buffer on which the whole descent
    succeeds (ilst found at offset 28) and the insertion is non-empty, but
    the recorded ilst size (100) overruns the buffer: `injectReplayGain`
    throws a RangeError (models as `none`) instead of returning a buffer
    of length original + K. -/
theorem c1_overrun_counterexample :
    findAtomE [0, 0, 0, 40, 109, 111, 111, 118,
       0, 0, 0, 32, 117, 100, 116, 97,
       0, 0, 0, 24, 109, 101, 116, 97,
       0, 0, 0, 0,
       0, 0, 0, 100, 105, 108, 115, 116,
       1, 2, 3, 4] ILST 28 40 = some (some 28) ∧
    0 < addedSizeOf [("A".toList, "B".toList)] ∧
    injectReplayGainSt [0, 0, 0, 40, 109, 111, 111, 118,
       0, 0, 0, 32, 117, 100, 116, 97,
       0, 0, 0, 24, 109, 101, 116, 97,
       0, 0, 0, 0,
       0, 0, 0, 100, 105, 108, 115, 116,
       1, 2, 3, 4] [("A".toList, "B".toList)] = none := by
  refine ⟨?_, ?_, ?_⟩ <;> decide

/-! ## Claim C2 -/

theorem addedSizeOf_eq_zero (tags : List (List Char × List Char))
    (h : ∀ kv ∈ tags, kv.2 = []) : addedSizeOf tags = 0 := by
  have hf : tags.filter (fun kv => !kv.2.isEmpty) = [] := by
    rw [List.filter_eq_nil_iff]
    intro kv hkv
    rw [h kv hkv]
    decide
  rw [addedSizeOf, tagAtoms, hf]
  rfl

/-- C2 (amended): provided every size field encountered keeps the scans
    and the splice inside the buffer, `injectReplayGain` returns the
    original buffer byte-identical, raising no error, whenever a link of
    the atom chain is missing (moov / udta-within-moov / meta-within-udta /
    ilst-within-meta scans that complete and report NotFound) or every
    supplied tag value is empty; and when the descent succeeds with a
    non-empty insertion and in-bounds ilst end, it returns a new, strictly
    longer buffer.  Without the proviso the call can instead throw a
    RangeError while an atom is missing (see the counterexample). -/
theorem c2_fallback_ladder (f : List Nat) (tags : List (List Char × List Char)) :
    (findAtomE f MOOV 0 f.length = some none →
      injectReplayGainSt f tags = some (⟨f, []⟩, f)) ∧
    (∀ mo M, findAtomE f MOOV 0 f.length = some (some mo) →
      readU32 f mo = some M →
      findAtomE f UDTA (mo + 8) (mo + M) = some none →
      injectReplayGainSt f tags = some (⟨f, []⟩, f)) ∧
    (∀ mo M uo U, findAtomE f MOOV 0 f.length = some (some mo) →
      readU32 f mo = some M →
      findAtomE f UDTA (mo + 8) (mo + M) = some (some uo) →
      readU32 f uo = some U →
      findAtomE f META (uo + 8) (uo + U) = some none →
      injectReplayGainSt f tags = some (⟨f, []⟩, f)) ∧
    (∀ mo M uo U eo E, findAtomE f MOOV 0 f.length = some (some mo) →
      readU32 f mo = some M →
      findAtomE f UDTA (mo + 8) (mo + M) = some (some uo) →
      readU32 f uo = some U →
      findAtomE f META (uo + 8) (uo + U) = some (some eo) →
      readU32 f eo = some E →
      findAtomE f ILST (eo + 12) (eo + E) = some none →
      injectReplayGainSt f tags = some (⟨f, []⟩, f)) ∧
    ((∀ kv ∈ tags, kv.2 = []) →
      ∀ mo M uo U eo E io I, findAtomE f MOOV 0 f.length = some (some mo) →
      readU32 f mo = some M →
      findAtomE f UDTA (mo + 8) (mo + M) = some (some uo) →
      readU32 f uo = some U →
      findAtomE f META (uo + 8) (uo + U) = some (some eo) →
      readU32 f eo = some E →
      findAtomE f ILST (eo + 12) (eo + E) = some (some io) →
      readU32 f io = some I →
      injectReplayGainSt f tags = some (⟨f, []⟩, f)) ∧
    (∀ mo M uo U eo E io I, findAtomE f MOOV 0 f.length = some (some mo) →
      readU32 f mo = some M →
      findAtomE f UDTA (mo + 8) (mo + M) = some (some uo) →
      readU32 f uo = some U →
      findAtomE f META (uo + 8) (uo + U) = some (some eo) →
      readU32 f eo = some E →
      findAtomE f ILST (eo + 12) (eo + E) = some (some io) →
      readU32 f io = some I →
      0 < addedSizeOf tags → io + I ≤ f.length →
      ∃ r : List Nat, injectReplayGainSt f tags = some (⟨f, r⟩, r) ∧
        f.length < r.length) := by
  refine ⟨?_, ?_, ?_, ?_, ?_, ?_⟩
  · intro h1
    rw [injectReplayGainSt, h1]
  · intro mo M h1 hM h2
    rw [injectReplayGainSt, h1]
    simp only []
    rw [hM]
    simp only []
    rw [h2]
  · intro mo M uo U h1 hM h2 hU h3
    rw [injectReplayGainSt, h1]
    simp only []
    rw [hM]
    simp only []
    rw [h2]
    simp only []
    rw [hU]
    simp only []
    rw [h3]
  · intro mo M uo U eo E h1 hM h2 hU h3 hE h4
    rw [injectReplayGainSt, h1]
    simp only []
    rw [hM]
    simp only []
    rw [h2]
    simp only []
    rw [hU]
    simp only []
    rw [h3]
    simp only []
    rw [hE]
    simp only []
    rw [h4]
  · intro hempty mo M uo U eo E io I h1 hM h2 hU h3 hE h4 hI
    rw [injectReplayGainSt, h1]
    simp only []
    rw [hM]
    simp only []
    rw [h2]
    simp only []
    rw [hU]
    simp only []
    rw [h3]
    simp only []
    rw [hE]
    simp only []
    rw [h4]
    simp only []
    rw [hI]
    simp only []
    simp only [injectBuild]
    rw [if_pos (addedSizeOf_eq_zero tags hempty)]
  · intro mo M uo U eo E io I h1 hM h2 hU h3 hE h4 hI hK hins
    have ho1 : mo + 8 ≤ uo := findAtomE_ge h2
    have ho2 : uo + 8 ≤ eo := findAtomE_ge h3
    have ho3 : eo + 12 ≤ io := findAtomE_ge h4
    have h8 : 8 ≤ I := by
      obtain ⟨sz, hsz, hs8, -, -⟩ := findAtomE_found h4
      rw [hI] at hsz
      cases hsz
      exact hs8
    refine ⟨patchedBuffer f tags mo M uo U eo E io I,
      inject_found f tags mo M uo U eo E io I h1 hM h2 hU h3 hE h4 hI
        (by omega) hins, ?_⟩
    rw [patchedBuffer_length f tags mo M uo U eo E io I hins h8 ho1 ho2 ho3]
    omega

/-- C2 witness: a 16-byte buffer whose moov contains no udta — the call
    returns the original buffer unchanged with no error. -/
theorem c2_fallback_ladder_witness :
    injectReplayGainSt [0, 0, 0, 16, 109, 111, 111, 118,
        0, 0, 0, 8, 120, 120, 120, 120] [("K".toList, "V".toList)] =
      some (⟨[0, 0, 0, 16, 109, 111, 111, 118,
        0, 0, 0, 8, 120, 120, 120, 120], []⟩,
        [0, 0, 0, 16, 109, 111, 111, 118, 0, 0, 0, 8, 120, 120, 120, 120]) :=
  (c2_fallback_ladder [0, 0, 0, 16, 109, 111, 111, 118,
      0, 0, 0, 8, 120, 120, 120, 120] [("K".toList, "V".toList)]).2.1
    0 16 (by decide) (by decide) (by decide)

/-- C2 counterexample: a 16-byte buffer where moov is found (with a
    corrupt size of 100) and no udta atom exists anywhere in it, yet the
    udta scan runs past the end of the buffer and the DataView read throws
    a RangeError (`none`): an error is raised even though the udta link is
    missing, and the original buffer is not returned. -/
theorem c2_throw_counterexample :
    findAtomE [0, 0, 0, 100, 109, 111, 111, 118,
        0, 0, 0, 8, 120, 120, 120, 120] MOOV 0 16 = some (some 0) ∧
    readType [0, 0, 0, 100, 109, 111, 111, 118,
        0, 0, 0, 8, 120, 120, 120, 120] 12 ≠ some UDTA ∧
    findAtomE [0, 0, 0, 100, 109, 111, 111, 118,
        0, 0, 0, 8, 120, 120, 120, 120] UDTA 8 100 = none ∧
    injectReplayGainSt [0, 0, 0, 100, 109, 111, 111, 118,
        0, 0, 0, 8, 120, 120, 120, 120] [("A".toList, "B".toList)] = none := by
  refine ⟨?_, ?_, ?_, ?_⟩ <;> decide

end TdlDl
